import Mathlib

/-!
Formal model of the `dicom_rs` Rust bridge
(`src/rust/src/api/dicom_rs_interface.rs` and
`src/rust/src/api/dicom_rs_interface_complex.rs`), shallowly embedded in
Lean 4.

Modelling conventions:
* `f64` values are modelled as `ℚ`.  None of the verified properties depends
  on floating-point rounding or on NaN: every comparison performed by the
  code is `partial_cmp(..).unwrap_or(Equal)` on values that are ordered, and
  the embedded comparators mirror that behaviour on `ℚ`.
* `i32` is modelled as `Int`, `u32`/`u16` as `ℕ`.
* Rust's `slice::sort_by` is a stable sort; it is modelled by Mathlib's
  stable `List.insertionSort` applied to the relation
  `fun a b => comparator a b ≠ Ordering.gt`, which characterises the output
  of a stable sort driven by an `Ordering`-valued comparator.
* Filesystem and DICOM-parser effects are made explicit: a directory is a
  list of abstract files, and opening a file is a function from the path to
  the parse outcome.
-/

/-- Model of Rust's three-way comparison (`Ord::cmp`, and
`PartialOrd::partial_cmp(..).unwrap_or(Ordering::Equal)` for the `f64`
fields, which on ordered values agree) on a linearly ordered type. -/
def cmpLO {α : Type} [LinearOrder α] (a b : α) : Ordering :=
  if a < b then Ordering.lt else if b < a then Ordering.gt else Ordering.eq

theorem cmpLO_eq_lt {α : Type} [LinearOrder α] {a b : α} :
    cmpLO a b = Ordering.lt ↔ a < b := by
  by_cases h : a < b
  · simp [cmpLO, h]
  · by_cases h2 : b < a <;> simp [cmpLO, h, h2]

theorem cmpLO_eq_gt {α : Type} [LinearOrder α] {a b : α} :
    cmpLO a b = Ordering.gt ↔ b < a := by
  by_cases h : a < b
  · simp [cmpLO, h, lt_asymm h]
  · by_cases h2 : b < a <;> simp [cmpLO, h, h2]

theorem cmpLO_ne_gt {α : Type} [LinearOrder α] {a b : α} :
    cmpLO a b ≠ Ordering.gt ↔ a ≤ b := by
  rw [Ne, cmpLO_eq_gt, not_lt]

theorem cmpLO_eq_eq {α : Type} [LinearOrder α] {a b : α} :
    cmpLO a b = Ordering.eq ↔ a = b := by
  by_cases h : a < b
  · simp [cmpLO, h, ne_of_lt h]
  · by_cases h2 : b < a
    · simp [cmpLO, h, h2, (ne_of_lt h2).symm]
    · simp [cmpLO, h, h2, le_antisymm (not_lt.mp h2) (not_lt.mp h)]

/-- Model of Rust's stable `slice::sort_by(comparator)`: the stable
reordering that is nondecreasing for the comparator. -/
def rustSortBy {α : Type} (c : α → α → Ordering) (l : List α) : List α :=
  l.insertionSort fun a b => c a b ≠ Ordering.gt

theorem rustSortBy_perm {α : Type} (c : α → α → Ordering) (l : List α) :
    (rustSortBy c l).Perm l :=
  List.perm_insertionSort _ l

theorem rustSortBy_length {α : Type} (c : α → α → Ordering) (l : List α) :
    (rustSortBy c l).length = l.length :=
  (rustSortBy_perm c l).length_eq

theorem rustSortBy_sorted {α : Type} (c : α → α → Ordering)
    (htot : ∀ a b, c a b ≠ Ordering.gt ∨ c b a ≠ Ordering.gt)
    (htr : ∀ a b d, c a b ≠ Ordering.gt → c b d ≠ Ordering.gt → c a d ≠ Ordering.gt)
    (l : List α) :
    (rustSortBy c l).Pairwise (fun a b => c a b ≠ Ordering.gt) :=
  @List.sorted_insertionSort α (fun a b => c a b ≠ Ordering.gt) _ ⟨htot⟩ ⟨htr⟩ l

/-- A comparator built from a key into a linear order sorts by that key. -/
theorem rustSortBy_sorted_key {α β : Type} [LinearOrder β] (f : α → β) (l : List α) :
    (rustSortBy (fun a b => cmpLO (f a) (f b)) l).Pairwise (fun a b => f a ≤ f b) := by
  have h := rustSortBy_sorted (fun a b => cmpLO (f a) (f b))
    (fun a b => by
      rw [cmpLO_ne_gt, cmpLO_ne_gt]
      exact le_total (f a) (f b))
    (fun a b d hab hbd => by
      rw [cmpLO_ne_gt] at hab hbd ⊢
      exact le_trans hab hbd) l
  exact h.imp fun hab => cmpLO_ne_gt.mp hab

/-! ## Data model (`DicomMetadata` and friends, dicom_rs_interface.rs lines 82-226) -/

/-- `DicomMetadata`: the well-known-tag record produced by `extract_metadata`.
All fields are optional; `f64`s are modelled as `ℚ`. -/
structure DicomMetadata where
  patient_name : Option String
  patient_id : Option String
  study_date : Option String
  accession_number : Option String
  modality : Option String
  study_description : Option String
  series_description : Option String
  instance_number : Option Int
  series_number : Option Int
  study_instance_uid : Option String
  series_instance_uid : Option String
  sop_instance_uid : Option String
  image_position : Option (List ℚ)
  image_orientation : Option (List ℚ)
  slice_location : Option ℚ
  slice_thickness : Option ℚ
  spacing_between_slices : Option ℚ
  pixel_spacing : Option (List ℚ)
deriving Repr, DecidableEq

/-- The all-`None` metadata record built inline by the scanner when
metadata extraction fails. -/
def emptyMetadata : DicomMetadata :=
  { patient_name := none, patient_id := none, study_date := none,
    accession_number := none, modality := none, study_description := none,
    series_description := none, instance_number := none, series_number := none,
    study_instance_uid := none, series_instance_uid := none,
    sop_instance_uid := none, image_position := none, image_orientation := none,
    slice_location := none, slice_thickness := none,
    spacing_between_slices := none, pixel_spacing := none }

/-- `DicomDirectoryEntry`: one scanned file. -/
structure DicomDirectoryEntry where
  path : String
  metadata : DicomMetadata
  is_valid : Bool
deriving Repr, DecidableEq

/-- `DicomInstance`: one file inside a series. -/
structure DicomInstance where
  path : String
  sop_instance_uid : Option String
  instance_number : Option Int
  image_position : Option (List ℚ)
  slice_location : Option ℚ
  is_valid : Bool
deriving Repr, DecidableEq

/-- `DicomSeries`. -/
structure DicomSeries where
  series_instance_uid : Option String
  series_number : Option Int
  series_description : Option String
  modality : Option String
  instances : List DicomInstance
deriving Repr, DecidableEq

/-- `DicomStudy`. -/
structure DicomStudy where
  study_instance_uid : Option String
  study_date : Option String
  study_description : Option String
  accession_number : Option String
  series : List DicomSeries
deriving Repr, DecidableEq

/-- `DicomPatient`. -/
structure DicomPatient where
  patient_id : Option String
  patient_name : Option String
  studies : List DicomStudy
deriving Repr, DecidableEq

/-! ## sort_dicom_entries (dicom_rs_interface.rs lines 1691-1713) -/

/-- The `match (a, b)` block used by the sorts on optional `i32` fields:
absent values ordered after present ones. -/
def cmpOptInt : Option Int → Option Int → Ordering
  | some a, some b => cmpLO a b
  | some _, none => Ordering.lt
  | none, some _ => Ordering.gt
  | none, none => Ordering.eq

/-- Same shape at the `f64` (`ℚ`) fields:
`partial_cmp(..).unwrap_or(Equal)`, absent values last. -/
def cmpOptQ : Option ℚ → Option ℚ → Ordering
  | some a, some b => cmpLO a b
  | some _, none => Ordering.lt
  | none, some _ => Ordering.gt
  | none, none => Ordering.eq

/-- The comparator of `sort_dicom_entries`: series number first, then
instance number, absent numbers after present ones each time. -/
def entryCmp (a b : DicomDirectoryEntry) : Ordering :=
  let series_cmp := cmpOptInt a.metadata.series_number b.metadata.series_number
  if series_cmp = Ordering.eq then
    cmpOptInt a.metadata.instance_number b.metadata.instance_number
  else series_cmp

/-- `sort_dicom_entries`: sort by (series number asc, instance number asc),
nulls last at each tier. -/
def sort_dicom_entries (entries : List DicomDirectoryEntry) : List DicomDirectoryEntry :=
  rustSortBy entryCmp entries

/-! Specification-level order relations used to state the sorting claims. -/

/-- Strict "nulls last" order on optional integers. -/
def optIntLt : Option Int → Option Int → Prop
  | some a, some b => a < b
  | some _, none => True
  | none, _ => False

/-- Weak "nulls last" order on optional integers. -/
def optIntLe : Option Int → Option Int → Prop
  | some a, some b => a ≤ b
  | some _, none => True
  | none, some _ => False
  | none, none => True

instance : DecidableRel optIntLt := fun x y =>
  match x, y with
  | some a, some b => (inferInstance : Decidable (a < b))
  | some _, none => isTrue trivial
  | none, some _ => isFalse id
  | none, none => isFalse id

instance : DecidableRel optIntLe := fun x y =>
  match x, y with
  | some a, some b => (inferInstance : Decidable (a ≤ b))
  | some _, none => isTrue trivial
  | none, some _ => isFalse id
  | none, none => isTrue trivial

/-- The directory-scan order stated by the spec: series number ascending,
then instance number ascending, absent values after present ones. -/
def scanOrder (a b : DicomDirectoryEntry) : Prop :=
  optIntLt a.metadata.series_number b.metadata.series_number ∨
    (a.metadata.series_number = b.metadata.series_number ∧
      optIntLe a.metadata.instance_number b.metadata.instance_number)

instance : DecidableRel scanOrder := fun a b => by
  unfold scanOrder
  infer_instance

theorem cmpOptInt_eq_lt {x y : Option Int} : cmpOptInt x y = Ordering.lt ↔ optIntLt x y := by
  cases x <;> cases y <;> simp [cmpOptInt, optIntLt, cmpLO_eq_lt]

theorem cmpOptInt_eq_eq {x y : Option Int} : cmpOptInt x y = Ordering.eq ↔ x = y := by
  cases x <;> cases y <;> simp [cmpOptInt, cmpLO_eq_eq]

theorem cmpOptInt_ne_gt {x y : Option Int} : cmpOptInt x y ≠ Ordering.gt ↔ optIntLe x y := by
  cases x <;> cases y <;> simp [cmpOptInt, optIntLe, cmpLO_ne_gt]

theorem entryCmp_ne_gt {a b : DicomDirectoryEntry} :
    entryCmp a b ≠ Ordering.gt ↔ scanOrder a b := by
  unfold entryCmp scanOrder
  by_cases h : cmpOptInt a.metadata.series_number b.metadata.series_number = Ordering.eq
  · rw [if_pos h]
    rw [cmpOptInt_eq_eq] at h
    rw [cmpOptInt_ne_gt]
    constructor
    · intro hle
      exact Or.inr ⟨h, hle⟩
    · rintro (hlt | ⟨-, hle⟩)
      · rw [h] at hlt
        cases hv : b.metadata.series_number <;> rw [hv] at hlt <;> simp [optIntLt] at hlt
      · exact hle
  · rw [if_neg h]
    constructor
    · intro hne
      left
      rw [← cmpOptInt_eq_lt]
      cases hc : cmpOptInt a.metadata.series_number b.metadata.series_number
      · rfl
      · exact absurd hc h
      · exact absurd hc hne
    · rintro (hlt | ⟨heq, -⟩)
      · rw [← cmpOptInt_eq_lt] at hlt
        rw [hlt]
        simp
      · exact absurd (cmpOptInt_eq_eq.mpr heq) h

theorem optIntLe_total (x y : Option Int) : optIntLe x y ∨ optIntLe y x := by
  cases x <;> cases y <;> simp [optIntLe]
  omega

theorem optIntLe_trans {x y z : Option Int} (h1 : optIntLe x y) (h2 : optIntLe y z) :
    optIntLe x z := by
  cases x <;> cases y <;> cases z <;> simp [optIntLe] at * <;> omega

theorem optIntLt_trichotomy (x y : Option Int) : optIntLt x y ∨ x = y ∨ optIntLt y x := by
  cases x <;> cases y <;> simp [optIntLt]
  omega

theorem optIntLt_trans {x y z : Option Int} (h1 : optIntLt x y) (h2 : optIntLt y z) :
    optIntLt x z := by
  cases x <;> cases y <;> cases z <;> simp [optIntLt] at * <;> omega

theorem scanOrder_total (a b : DicomDirectoryEntry) : scanOrder a b ∨ scanOrder b a := by
  rcases optIntLt_trichotomy a.metadata.series_number b.metadata.series_number with h | h | h
  · exact Or.inl (Or.inl h)
  · rcases optIntLe_total a.metadata.instance_number b.metadata.instance_number with h2 | h2
    · exact Or.inl (Or.inr ⟨h, h2⟩)
    · exact Or.inr (Or.inr ⟨h.symm, h2⟩)
  · exact Or.inr (Or.inl h)

theorem scanOrder_trans {a b d : DicomDirectoryEntry}
    (h1 : scanOrder a b) (h2 : scanOrder b d) : scanOrder a d := by
  unfold scanOrder at *
  rcases h1 with h1 | ⟨e1, l1⟩ <;> rcases h2 with h2 | ⟨e2, l2⟩
  · exact Or.inl (optIntLt_trans h1 h2)
  · rw [← e2]
    exact Or.inl h1
  · rw [e1]
    exact Or.inl h2
  · exact Or.inr ⟨e1.trans e2, optIntLe_trans l1 l2⟩

/-! ## Directory scan model (`load_dicom_directory`, lines 1345-1453) -/

/-- Abstract view of one filesystem entry inside the scanned directory.
`opens = some m` models `FileDicomObject::open_file` succeeding with a DICOM
object whose `extract_metadata` yields `m` (extraction itself is total, see
the `extract_metadata` model below); `opens = none` models the open failing,
which is also exactly the condition under which `is_dicom_file` is false. -/
structure ScanFile where
  path : String
  isDir : Bool
  opens : Option DicomMetadata
deriving Repr, DecidableEq

/-- One iteration of the `load_dicom_directory` loop: directories are
skipped, files failing the `is_dicom_file` check are skipped, DICOM files
yield an entry carrying their extracted metadata. -/
def scanFileEntry : ScanFile → Option DicomDirectoryEntry
  | f =>
    if f.isDir then none
    else
      match f.opens with
      | some m => some { path := f.path, metadata := m, is_valid := true }
      | none => none

/-- `load_dicom_directory` (non-recursive scan): collect entries for the
DICOM files, then `sort_dicom_entries`.  The whole-directory failure modes
(path missing or unreadable) are outside this model, which assumes a
listable directory. -/
def load_dicom_directory (files : List ScanFile) : List DicomDirectoryEntry :=
  sort_dicom_entries (files.filterMap scanFileEntry)

/-! ## flip_vertically (lines 2584-2593) -/

/-- `flip_vertically`: re-emit the `height` rows of `row_length` bytes each
in reverse row order (`for row in 0..height` copy the slice starting at
`(height - 1 - row) * row_length`). -/
def flip_vertically (pixel_data : List UInt8) (height : ℕ) (row_length : ℕ) : List UInt8 :=
  ((List.range height).map fun row =>
    (pixel_data.drop ((height - 1 - row) * row_length)).take row_length).flatten

theorem flip_vertically_cons_row (row rest : List UInt8) (height row_length : ℕ)
    (hrow : row.length = row_length) :
    flip_vertically (row ++ rest) (height + 1) row_length =
      flip_vertically rest height row_length ++ row := by
  unfold flip_vertically
  rw [List.range_succ, List.map_append, List.flatten_append]
  congr 1
  · apply congrArg List.flatten
    apply List.map_congr_left
    intro i hi
    rw [List.mem_range] at hi
    have e1 : height + 1 - 1 - i = (height - 1 - i) + 1 := by omega
    have e2 : ((height - 1 - i) + 1) * row_length = row.length + (height - 1 - i) * row_length := by
      rw [hrow]
      ring
    rw [e1, e2, List.drop_append]
  · simp only [List.map_cons, List.map_nil, List.flatten_cons, List.flatten_nil, List.append_nil]
    have e3 : height + 1 - 1 - height = 0 := by omega
    rw [e3, Nat.zero_mul, List.drop_zero, ← hrow, List.take_left]

theorem flip_vertically_length (pixel_data : List UInt8) (height row_length : ℕ)
    (h : pixel_data.length = height * row_length) :
    (flip_vertically pixel_data height row_length).length = height * row_length := by
  induction height generalizing pixel_data with
  | zero => simp [flip_vertically]
  | succ n ih =>
    have hsplit := List.take_append_drop row_length pixel_data
    have hlt : (pixel_data.take row_length).length = row_length := by
      rw [List.length_take]
      have hle : row_length ≤ pixel_data.length := by
        rw [h]
        calc row_length = 1 * row_length := (one_mul _).symm
        _ ≤ (n + 1) * row_length := Nat.mul_le_mul_right _ (by omega)
      omega
    have hld : (pixel_data.drop row_length).length = n * row_length := by
      rw [List.length_drop, h]
      have : (n + 1) * row_length = n * row_length + row_length := by ring
      omega
    rw [← hsplit, flip_vertically_cons_row _ _ _ _ hlt, List.length_append, hlt, ih _ hld]
    ring

theorem flip_vertically_append_last (X row : List UInt8) (height row_length : ℕ)
    (hX : X.length = height * row_length) (hrow : row.length = row_length) :
    flip_vertically (X ++ row) (height + 1) row_length =
      row ++ flip_vertically X height row_length := by
  unfold flip_vertically
  rw [List.range_succ_eq_map, List.map_cons, List.flatten_cons]
  congr 1
  · have e0 : (height + 1 - 1 - 0) * row_length = X.length + 0 := by
      rw [hX]
      have : height + 1 - 1 - 0 = height := by omega
      rw [this, Nat.add_zero]
    rw [e0, List.drop_append, List.drop_zero, ← hrow, List.take_length]
  · rw [List.map_map]
    apply congrArg List.flatten
    apply List.map_congr_left
    intro j hj
    rw [List.mem_range] at hj
    simp only [Function.comp_apply]
    have e1 : height + 1 - 1 - Nat.succ j = height - 1 - j := by omega
    rw [e1]
    have hin : (height - 1 - j) * row_length + row_length ≤ X.length := by
      rw [hX]
      have hj1 : (height - 1 - j) + 1 ≤ height := by omega
      calc (height - 1 - j) * row_length + row_length
          = ((height - 1 - j) + 1) * row_length := by ring
      _ ≤ height * row_length := Nat.mul_le_mul_right _ hj1
    rw [List.drop_append_of_le_length (by omega)]
    rw [List.take_append_of_le_length (by rw [List.length_drop]; omega)]

theorem flip_vertically_involutive (pixel_data : List UInt8) (height row_length : ℕ)
    (h : pixel_data.length = height * row_length) :
    flip_vertically (flip_vertically pixel_data height row_length) height row_length =
      pixel_data := by
  induction height generalizing pixel_data with
  | zero =>
    have hnil : pixel_data = [] := List.eq_nil_of_length_eq_zero (by simpa using h)
    subst hnil
    rfl
  | succ n ih =>
    have hsplit := List.take_append_drop row_length pixel_data
    have hlt : (pixel_data.take row_length).length = row_length := by
      rw [List.length_take]
      have hle : row_length ≤ pixel_data.length := by
        rw [h]
        calc row_length = 1 * row_length := (one_mul _).symm
        _ ≤ (n + 1) * row_length := Nat.mul_le_mul_right _ (by omega)
      omega
    have hld : (pixel_data.drop row_length).length = n * row_length := by
      rw [List.length_drop, h]
      have : (n + 1) * row_length = n * row_length + row_length := by ring
      omega
    rw [← hsplit, flip_vertically_cons_row _ _ _ _ hlt,
      flip_vertically_append_last _ _ _ _
        (flip_vertically_length _ _ _ hld) hlt,
      ih _ hld]

/-- C10: `flip_vertically` is a length-preserving involution: for every byte
buffer whose length equals `height * row_length`, the output has the same
length as the input, and applying `flip_vertically` twice with the same
`height` and `row_length` returns the original buffer. -/
theorem C10_flip_vertically_length_preserving_involution
    (pixel_data : List UInt8) (height row_length : ℕ)
    (h : pixel_data.length = height * row_length) :
    (flip_vertically pixel_data height row_length).length = pixel_data.length ∧
      flip_vertically (flip_vertically pixel_data height row_length) height row_length =
        pixel_data :=
  ⟨by rw [flip_vertically_length _ _ _ h, h], flip_vertically_involutive _ _ _ h⟩

/-- Witness for C10 at a concrete 2×2 single-byte-per-pixel buffer. -/
theorem C10_flip_vertically_length_preserving_involution_witness :
    ([1, 2, 3, 4] : List UInt8).length = 2 * 2 ∧
      ((flip_vertically [1, 2, 3, 4] 2 2).length = ([1, 2, 3, 4] : List UInt8).length ∧
        flip_vertically (flip_vertically [1, 2, 3, 4] 2 2) 2 2 = [1, 2, 3, 4]) :=
  ⟨by decide, C10_flip_vertically_length_preserving_involution [1, 2, 3, 4] 2 2 (by decide)⟩

/-! ## C3: directory scan ordering -/

/-- Metadata carrying only a series and instance number, as used in the
scan-ordering scenario. -/
def mdNumbered (sn inst : Option Int) : DicomMetadata :=
  { emptyMetadata with series_number := sn, instance_number := inst }

/-- The three-file directory of the scenario: one non-DICOM file and two
DICOM files with (series 1, instance 2) and (series 1, instance 1). -/
def scanDirC3 : List ScanFile :=
  [{ path := "/d/notes.txt", isDir := false, opens := none },
   { path := "/d/b.dcm", isDir := false, opens := some (mdNumbered (some 1) (some 2)) },
   { path := "/d/a.dcm", isDir := false, opens := some (mdNumbered (some 1) (some 1)) }]

/-- C3: the non-recursive scan returns a list sorted by series number then
instance number ascending with absent numbers last (stated by `scanOrder`),
containing exactly the files that pass the DICOM check (the permutation
clause: non-DICOM files are silently excluded by `scanFileEntry`); and on
the concrete three-file directory it returns exactly the two DICOM entries
ordered [instance 1, instance 2]. -/
theorem C3_load_dicom_directory_sorted_excludes_non_dicom (files : List ScanFile) :
    ((load_dicom_directory files).Pairwise scanOrder ∧
      (load_dicom_directory files).Perm (files.filterMap scanFileEntry)) ∧
    load_dicom_directory scanDirC3 =
      [{ path := "/d/a.dcm", metadata := mdNumbered (some 1) (some 1), is_valid := true },
       { path := "/d/b.dcm", metadata := mdNumbered (some 1) (some 2), is_valid := true }] := by
  refine ⟨⟨?_, rustSortBy_perm _ _⟩, by decide⟩
  have h := rustSortBy_sorted entryCmp
    (fun a b => by
      rw [entryCmp_ne_gt, entryCmp_ne_gt]
      exact scanOrder_total a b)
    (fun a b d hab hbd => by
      rw [entryCmp_ne_gt] at hab hbd ⊢
      exact scanOrder_trans hab hbd)
    (files.filterMap scanFileEntry)
  exact h.imp fun hab => entryCmp_ne_gt.mp hab

/-! ## sort_instances_by_position (lines 1631-1688) -/

/-- Instance-number comparator (the final fallback of the spatial sorter). -/
def instNumCmp (a b : DicomInstance) : Ordering :=
  cmpOptInt a.instance_number b.instance_number

/-- Slice-location comparator: `partial_cmp(..).unwrap_or(Equal)`, absent
locations after present ones. -/
def slLocCmp (a b : DicomInstance) : Ordering :=
  cmpOptQ a.slice_location b.slice_location

/-- `i.image_position.is_some() && i.image_position.as_ref().unwrap().len() >= 3`. -/
def hasPos3 (i : DicomInstance) : Bool :=
  match i.image_position with
  | some p => decide (3 ≤ p.length)
  | none => false

/-- Tier-2 comparator: compare raw Z (third position component) when both
sides have a 3-vector, else fall back to instance number. -/
def posZCmp (a b : DicomInstance) : Ordering :=
  match a.image_position, b.image_position with
  | some pos_a, some pos_b =>
    if 3 ≤ pos_a.length ∧ 3 ≤ pos_b.length then cmpLO (pos_a.getD 2 0) (pos_b.getD 2 0)
    else instNumCmp a b
  | _, _ => instNumCmp a b

/-- `sort_instances_by_position`: slice location if any instance has one;
else raw Z position (guarded on the first instance having a valid
position); else instance number. -/
def sort_instances_by_position (instances : List DicomInstance) : List DicomInstance :=
  if instances.any fun i => i.slice_location.isSome then
    rustSortBy slLocCmp instances
  else if instances.any hasPos3 then
    match instances.head? with
    | some first =>
      if hasPos3 first then rustSortBy posZCmp instances
      else rustSortBy instNumCmp instances
    | none => rustSortBy instNumCmp instances
  else rustSortBy instNumCmp instances

/-- Weak "nulls last" order on optional rationals. -/
def optQLe : Option ℚ → Option ℚ → Prop
  | some a, some b => a ≤ b
  | some _, none => True
  | none, some _ => False
  | none, none => True

instance : DecidableRel optQLe := fun x y =>
  match x, y with
  | some a, some b => (inferInstance : Decidable (a ≤ b))
  | some _, none => isTrue trivial
  | none, some _ => isFalse id
  | none, none => isTrue trivial

theorem cmpOptQ_ne_gt {x y : Option ℚ} : cmpOptQ x y ≠ Ordering.gt ↔ optQLe x y := by
  cases x <;> cases y <;> simp [cmpOptQ, optQLe, cmpLO_ne_gt]

theorem optQLe_total (x y : Option ℚ) : optQLe x y ∨ optQLe y x := by
  cases x <;> cases y <;> simp [optQLe]
  exact le_total _ _

theorem optQLe_trans {x y z : Option ℚ} (h1 : optQLe x y) (h2 : optQLe y z) :
    optQLe x z := by
  cases x <;> cases y <;> cases z <;> simp [optQLe] at *
  exact le_trans h1 h2

/-- The slice-location order of the spec: ascending, absent locations after
present ones. -/
def sliceLocOrder (a b : DicomInstance) : Prop :=
  optQLe a.slice_location b.slice_location

instance : DecidableRel sliceLocOrder := fun a b => by
  unfold sliceLocOrder
  infer_instance

theorem slLocCmp_ne_gt {a b : DicomInstance} :
    slLocCmp a b ≠ Ordering.gt ↔ sliceLocOrder a b := by
  unfold slLocCmp sliceLocOrder
  exact cmpOptQ_ne_gt

/-- `orderedInsert` commutes with a map that respects the relations. -/
theorem orderedInsert_map {α β : Type} (r : α → α → Prop) (s : β → β → Prop)
    [DecidableRel r] [DecidableRel s] (f : α → β)
    (hrs : ∀ a b, r a b ↔ s (f a) (f b)) (a : α) (l : List α) :
    (List.orderedInsert r a l).map f = List.orderedInsert s (f a) (l.map f) := by
  induction l with
  | nil => rfl
  | cons b bs ih =>
    simp only [List.map_cons, List.orderedInsert]
    by_cases hr : r a b
    · rw [if_pos hr, if_pos ((hrs a b).mp hr), List.map_cons, List.map_cons]
    · rw [if_neg hr, if_neg (fun hs => hr ((hrs a b).mpr hs)), List.map_cons, ih]

/-- `insertionSort` commutes with a map that respects the relations. -/
theorem insertionSort_map {α β : Type} (r : α → α → Prop) (s : β → β → Prop)
    [DecidableRel r] [DecidableRel s] (f : α → β)
    (hrs : ∀ a b, r a b ↔ s (f a) (f b)) (l : List α) :
    (l.insertionSort r).map f = (l.map f).insertionSort s := by
  induction l with
  | nil => rfl
  | cons x xs ih =>
    rw [List.insertionSort, List.map_cons, List.insertionSort, ← ih,
      orderedInsert_map r s f hrs]

/-- `rustSortBy` commutes with a map that preserves the comparator. -/
theorem rustSortBy_map {α β : Type} (c : α → α → Ordering) (d : β → β → Ordering)
    (f : α → β) (hcd : ∀ a b, c a b = d (f a) (f b)) (l : List α) :
    (rustSortBy c l).map f = rustSortBy d (l.map f) := by
  unfold rustSortBy
  exact insertionSort_map _ _ f (fun a b => by rw [hcd a b]) l

/-- C6: whenever at least one instance carries a slice location, the spatial
sorter returns a permutation of its input that is ordered by slice location
ascending with absent locations last; and its result does not consult image
position or instance number: rewriting those two fields pointwise (by any
`g` preserving slice locations) commutes with the sort. -/
theorem C6_sort_instances_by_slice_location (l : List DicomInstance)
    (h : ∃ i ∈ l, i.slice_location.isSome) :
    (sort_instances_by_position l).Perm l ∧
      (sort_instances_by_position l).Pairwise sliceLocOrder ∧
      ∀ g : DicomInstance → DicomInstance, (∀ i, (g i).slice_location = i.slice_location) →
        sort_instances_by_position (l.map g) = (sort_instances_by_position l).map g := by
  have hany : (l.any fun i => i.slice_location.isSome) = true := by
    rw [List.any_eq_true]
    obtain ⟨i, hi, hs⟩ := h
    exact ⟨i, hi, hs⟩
  have heq : sort_instances_by_position l = rustSortBy slLocCmp l := by
    unfold sort_instances_by_position
    rw [if_pos hany]
  refine ⟨heq ▸ rustSortBy_perm _ _, ?_, ?_⟩
  · rw [heq]
    have hs := rustSortBy_sorted slLocCmp
      (fun a b => by
        rw [slLocCmp_ne_gt, slLocCmp_ne_gt]
        exact optQLe_total _ _)
      (fun a b d hab hbd => by
        rw [slLocCmp_ne_gt] at hab hbd ⊢
        exact optQLe_trans hab hbd) l
    exact hs.imp fun hab => slLocCmp_ne_gt.mp hab
  · intro g hg
    have hanymap : ((l.map g).any fun i => i.slice_location.isSome) = true := by
      rw [List.any_map]
      have : ((fun i => i.slice_location.isSome) ∘ g) = fun i => i.slice_location.isSome := by
        funext i
        simp [hg i]
      rw [this, hany]
    have heq2 : sort_instances_by_position (l.map g) = rustSortBy slLocCmp (l.map g) := by
      unfold sort_instances_by_position
      rw [if_pos hanymap]
    rw [heq, heq2]
    exact (rustSortBy_map slLocCmp slLocCmp g
      (fun a b => by simp [slLocCmp, hg a, hg b]) l).symm

/-- Witness for C6: two instances with slice locations 3 and 1 (and a
third without) get ordered 1, 3, missing-last. -/
theorem C6_sort_instances_by_slice_location_witness :
    (∃ i ∈ [⟨"p1", none, some 1, none, some 3, true⟩,
            ⟨"p2", none, some 2, none, some 1, true⟩,
            ⟨"p3", none, some 3, none, none, true⟩] , (DicomInstance.slice_location i).isSome) ∧
      ((sort_instances_by_position
          [⟨"p1", none, some 1, none, some 3, true⟩,
           ⟨"p2", none, some 2, none, some 1, true⟩,
           ⟨"p3", none, some 3, none, none, true⟩]).Perm
          [⟨"p1", none, some 1, none, some 3, true⟩,
           ⟨"p2", none, some 2, none, some 1, true⟩,
           ⟨"p3", none, some 3, none, none, true⟩] ∧
        (sort_instances_by_position
          [⟨"p1", none, some 1, none, some 3, true⟩,
           ⟨"p2", none, some 2, none, some 1, true⟩,
           ⟨"p3", none, some 3, none, none, true⟩]).Pairwise sliceLocOrder ∧
        ∀ g : DicomInstance → DicomInstance,
          (∀ i, (g i).slice_location = i.slice_location) →
          sort_instances_by_position
              ([⟨"p1", none, some 1, none, some 3, true⟩,
                ⟨"p2", none, some 2, none, some 1, true⟩,
                ⟨"p3", none, some 3, none, none, true⟩].map g) =
            (sort_instances_by_position
              [⟨"p1", none, some 1, none, some 3, true⟩,
               ⟨"p2", none, some 2, none, some 1, true⟩,
               ⟨"p3", none, some 3, none, none, true⟩]).map g) :=
  ⟨⟨_, List.mem_cons_self _ _, by decide⟩,
    C6_sort_instances_by_slice_location _ ⟨_, List.mem_cons_self _ _, by decide⟩⟩

/-! ## sort_dicom_entries_by_position (lines 2464-2539) -/

/-- The `find` predicate: orientation of length ≥ 6 and position of
length ≥ 3 on the same entry. -/
def validOriPos (e : DicomDirectoryEntry) : Bool :=
  (match e.metadata.image_orientation with
   | some v => decide (6 ≤ v.length)
   | none => false) &&
  (match e.metadata.image_position with
   | some v => decide (3 ≤ v.length)
   | none => false)

/-- The slice normal: cross product of the first triplet (row direction)
and second triplet (column direction) of the orientation sextuplet. -/
def sliceNormal (orient : List ℚ) : ℚ × ℚ × ℚ :=
  (orient.getD 1 0 * orient.getD 5 0 - orient.getD 2 0 * orient.getD 4 0,
   orient.getD 2 0 * orient.getD 3 0 - orient.getD 0 0 * orient.getD 5 0,
   orient.getD 0 0 * orient.getD 4 0 - orient.getD 1 0 * orient.getD 3 0)

/-- Dot product of the normal with a position vector. -/
def projOnNormal (n : ℚ × ℚ × ℚ) (pos : List ℚ) : ℚ :=
  n.1 * pos.getD 0 0 + n.2.1 * pos.getD 1 0 + n.2.2 * pos.getD 2 0

/-- The `proj_vals` collection loop: the projections of the entries that
carry a position of length ≥ 3, in list order (the code stops after two;
taking a prefix of this list is equivalent). -/
def validProjVals (n : ℚ × ℚ × ℚ) (entries : List DicomDirectoryEntry) : List ℚ :=
  entries.filterMap fun e =>
    match e.metadata.image_position with
    | some pos => if 3 ≤ pos.length then some (projOnNormal n pos) else none
    | none => none

/-- The projection used inside the sort comparator: position defaulted to
`[0,0,0]` when absent, projection defaulted to `0` when shorter than 3. -/
def entryProj (n : ℚ × ℚ × ℚ) (e : DicomDirectoryEntry) : ℚ :=
  let pos := e.metadata.image_position.getD [0, 0, 0]
  if 3 ≤ pos.length then projOnNormal n pos else 0

/-- The comparator of the projection sort: descending when `rev`. -/
def projCmp (rev : Bool) (n : ℚ × ℚ × ℚ) (a b : DicomDirectoryEntry) : Ordering :=
  if rev then cmpLO (entryProj n b) (entryProj n a)
  else cmpLO (entryProj n a) (entryProj n b)

/-- The fallback after the orientation branch: slice location if any entry
has one, else `sort_dicom_entries`. -/
def sort_by_position_fallback (entries : List DicomDirectoryEntry) :
    List DicomDirectoryEntry :=
  if entries.any fun e => e.metadata.slice_location.isSome then
    rustSortBy (fun a b => cmpOptQ a.metadata.slice_location b.metadata.slice_location) entries
  else sort_dicom_entries entries

/-- `sort_dicom_entries_by_position`: when some entry has a valid
orientation+position, compute the slice normal from it, collect the first
two projections of entries with valid positions, and if there are two, sort
all entries by signed projection (direction chosen by comparing them);
otherwise fall back to slice location, then to series/instance numbers. -/
def sort_dicom_entries_by_position (entries : List DicomDirectoryEntry) :
    List DicomDirectoryEntry :=
  match entries.find? validOriPos with
  | some first_with_orientation =>
    let normal := sliceNormal (first_with_orientation.metadata.image_orientation.getD [])
    let proj_vals := (validProjVals normal entries).take 2
    if 2 ≤ proj_vals.length then
      rustSortBy (projCmp (decide (proj_vals.getD 1 0 < proj_vals.getD 0 0)) normal) entries
    else sort_by_position_fallback entries
  | none => sort_by_position_fallback entries

/-- The projection order stated by the spec: monotone in the signed
projection, descending when `rev`. -/
def projOrder (rev : Bool) (n : ℚ × ℚ × ℚ) (a b : DicomDirectoryEntry) : Prop :=
  if rev then entryProj n b ≤ entryProj n a else entryProj n a ≤ entryProj n b

instance : (rev : Bool) → (n : ℚ × ℚ × ℚ) → DecidableRel (projOrder rev n) := fun rev n a b => by
  unfold projOrder
  cases rev <;> simp <;> infer_instance

theorem projCmp_ne_gt {rev : Bool} {n : ℚ × ℚ × ℚ} {a b : DicomDirectoryEntry} :
    projCmp rev n a b ≠ Ordering.gt ↔ projOrder rev n a b := by
  cases rev <;> simp [projCmp, projOrder, cmpLO_ne_gt]

theorem projOrder_total (rev : Bool) (n : ℚ × ℚ × ℚ) (a b : DicomDirectoryEntry) :
    projOrder rev n a b ∨ projOrder rev n b a := by
  cases rev <;> simp [projOrder] <;> exact le_total _ _

theorem projOrder_trans (rev : Bool) (n : ℚ × ℚ × ℚ) {a b d : DicomDirectoryEntry}
    (h1 : projOrder rev n a b) (h2 : projOrder rev n b d) : projOrder rev n a d := by
  cases rev
  · simp [projOrder] at *
    exact le_trans h1 h2
  · simp [projOrder] at *
    exact le_trans h2 h1

theorem getD_take_two (l : List ℚ) (i : ℕ) (hi : i < 2) (d : ℚ) :
    (l.take 2).getD i d = l.getD i d := by
  simp only [List.getD_eq_getElem?_getD, List.getElem?_take, if_pos hi]

/-- C2 (amended): when additionally at least TWO entries carry a valid 3-D
position (so that the direction of the sort can be decided), the
position-based sorter permutes its input into a list monotone in the signed
projection onto the cross-product normal of the first valid entry's
orientation, with the direction given by comparing the first two valid
projections. -/
theorem C2_sort_by_position_projection_order
    (entries : List DicomDirectoryEntry) (fwo : DicomDirectoryEntry)
    (hf : entries.find? validOriPos = some fwo)
    (h2 : 2 ≤ (validProjVals (sliceNormal (fwo.metadata.image_orientation.getD []))
            entries).length) :
    (sort_dicom_entries_by_position entries).Perm entries ∧
      (sort_dicom_entries_by_position entries).Pairwise
        (projOrder
          (decide ((validProjVals (sliceNormal (fwo.metadata.image_orientation.getD []))
              entries).getD 1 0 <
            (validProjVals (sliceNormal (fwo.metadata.image_orientation.getD []))
              entries).getD 0 0))
          (sliceNormal (fwo.metadata.image_orientation.getD []))) := by
  have hlen : 2 ≤ ((validProjVals (sliceNormal (fwo.metadata.image_orientation.getD []))
      entries).take 2).length := by
    rw [List.length_take]
    omega
  have heq : sort_dicom_entries_by_position entries =
      rustSortBy (projCmp
        (decide ((validProjVals (sliceNormal (fwo.metadata.image_orientation.getD []))
            entries).getD 1 0 <
          (validProjVals (sliceNormal (fwo.metadata.image_orientation.getD []))
            entries).getD 0 0))
        (sliceNormal (fwo.metadata.image_orientation.getD []))) entries := by
    unfold sort_dicom_entries_by_position
    rw [hf]
    simp only [if_pos hlen]
    rw [getD_take_two _ _ (by omega), getD_take_two _ _ (by omega)]
  rw [heq]
  refine ⟨rustSortBy_perm _ _, ?_⟩
  have hs := rustSortBy_sorted
    (projCmp
      (decide ((validProjVals (sliceNormal (fwo.metadata.image_orientation.getD []))
          entries).getD 1 0 <
        (validProjVals (sliceNormal (fwo.metadata.image_orientation.getD []))
          entries).getD 0 0))
      (sliceNormal (fwo.metadata.image_orientation.getD [])))
    (fun a b => by
      rw [projCmp_ne_gt, projCmp_ne_gt]
      exact projOrder_total _ _ a b)
    (fun a b d hab hbd => by
      rw [projCmp_ne_gt] at hab hbd ⊢
      exact projOrder_trans _ _ hab hbd)
    entries
  exact hs.imp fun hab => projCmp_ne_gt.mp hab

/-- Entry with a valid orientation and position used by the C2 theorems. -/
def entOriented (p : String) (pos : List ℚ) (sl : Option ℚ) : DicomDirectoryEntry :=
  { path := p,
    metadata := { emptyMetadata with
      image_orientation := some [1, 0, 0, 0, 1, 0],
      image_position := some pos,
      slice_location := sl },
    is_valid := true }

/-- Entry with neither orientation nor position, only a slice location. -/
def entLocated (p : String) (sl : ℚ) : DicomDirectoryEntry :=
  { path := p,
    metadata := { emptyMetadata with slice_location := some sl },
    is_valid := true }

/-- The entry list refuting C2 as stated: only ONE entry has a valid
position, so the code does not take the projection branch at all — it falls
back to slice-location order, which interleaves the projections. -/
def entriesC2 : List DicomDirectoryEntry :=
  [entOriented "a" [0, 0, 5] (some 2), entLocated "b" 1, entLocated "c" 3]

/-- The normal computed from the only oriented entry of `entriesC2`. -/
def normalC2 : ℚ × ℚ × ℚ :=
  sliceNormal ((entOriented "a" [0, 0, 5] (some 2)).metadata.image_orientation.getD [])

/-- Counterexample to C2 as stated: `entriesC2` satisfies the claim's
hypothesis (an entry with orientation ≥ 6 and position ≥ 3 exists and is
found), yet the sorter's output is ordered by signed projection in neither
direction: the output is [b, a, c] with projections [0, 5, 0]. -/
theorem C2_counterexample :
    (entriesC2.find? validOriPos = some (entOriented "a" [0, 0, 5] (some 2))) ∧
      ¬ ((sort_dicom_entries_by_position entriesC2).Pairwise fun a b =>
          entryProj normalC2 a ≤ entryProj normalC2 b) ∧
      ¬ ((sort_dicom_entries_by_position entriesC2).Pairwise fun a b =>
          entryProj normalC2 b ≤ entryProj normalC2 a) := by
  have hsort : sort_dicom_entries_by_position entriesC2 =
      [entLocated "b" 1, entOriented "a" [0, 0, 5] (some 2), entLocated "c" 3] := by decide
  have hA : entryProj normalC2 (entOriented "a" [0, 0, 5] (some 2)) = 5 := by
    norm_num [entryProj, normalC2, sliceNormal, projOnNormal, entOriented, emptyMetadata]
  have hC : entryProj normalC2 (entLocated "c" 3) = 0 := by
    norm_num [entryProj, normalC2, sliceNormal, projOnNormal, entLocated, emptyMetadata]
  refine ⟨by decide, ?_, ?_⟩
  · rw [hsort]
    intro hp
    have h1 := (List.pairwise_cons.mp (List.pairwise_cons.mp hp).2).1
      (entLocated "c" 3) (List.mem_singleton.mpr rfl)
    rw [hA, hC] at h1
    norm_num at h1
  · rw [hsort]
    intro hp
    have h1 := (List.pairwise_cons.mp hp).1
      (entOriented "a" [0, 0, 5] (some 2)) (List.mem_cons_self _ _)
    have hB : entryProj normalC2 (entLocated "b" 1) = 0 := by
      norm_num [entryProj, normalC2, sliceNormal, projOnNormal, entLocated, emptyMetadata]
    rw [hA, hB] at h1
    norm_num at h1

/-- Witness for the amended C2 theorem: two oriented entries with valid
positions; the hypotheses are discharged by computation and the conclusion
is the theorem's own instance. -/
theorem C2_sort_by_position_projection_order_witness :
    (([entOriented "a" [0, 0, 5] none, entOriented "b" [0, 0, 1] none].find? validOriPos =
        some (entOriented "a" [0, 0, 5] none)) ∧
      2 ≤ (validProjVals
          (sliceNormal ((entOriented "a" [0, 0, 5] none).metadata.image_orientation.getD []))
          [entOriented "a" [0, 0, 5] none, entOriented "b" [0, 0, 1] none]).length) ∧
      ((sort_dicom_entries_by_position
          [entOriented "a" [0, 0, 5] none, entOriented "b" [0, 0, 1] none]).Perm
        [entOriented "a" [0, 0, 5] none, entOriented "b" [0, 0, 1] none] ∧
      (sort_dicom_entries_by_position
          [entOriented "a" [0, 0, 5] none, entOriented "b" [0, 0, 1] none]).Pairwise
        (projOrder
          (decide ((validProjVals
              (sliceNormal ((entOriented "a" [0, 0, 5] none).metadata.image_orientation.getD []))
              [entOriented "a" [0, 0, 5] none, entOriented "b" [0, 0, 1] none]).getD 1 0 <
            (validProjVals
              (sliceNormal ((entOriented "a" [0, 0, 5] none).metadata.image_orientation.getD []))
              [entOriented "a" [0, 0, 5] none, entOriented "b" [0, 0, 1] none]).getD 0 0))
          (sliceNormal ((entOriented "a" [0, 0, 5] none).metadata.image_orientation.getD [])))) :=
  ⟨⟨by decide, by decide⟩,
    C2_sort_by_position_projection_order _ _ (by decide) (by decide)⟩

/-! ## compute_slice_spacing (lines 2542-2578) and load_volume_from_directory (2607-2660) -/

/-- `e.metadata.image_position.is_some() && ..unwrap().len() >= 3` for entries. -/
def entryHasPos3 (e : DicomDirectoryEntry) : Bool :=
  match e.metadata.image_position with
  | some p => decide (3 ≤ p.length)
  | none => false

/-- The position loop of `compute_slice_spacing`: first adjacent pair with
two valid 3-D positions.  The source returns the Euclidean distance
`sqrt(dx*dx + dy*dy + dz*dz)`; `ℚ` has no square root, so this model
returns the squared distance `dx*dx + dy*dy + dz*dz` instead.  Every
property verified below depends only on WHICH branch (if any) produces a
value, never on the numeric value of this branch (the square root of a
nonnegative rational is defined and nonnegative exactly when the radicand
is, so presence/absence is preserved by the abstraction). -/
def findPosPairDistSq : List DicomDirectoryEntry → Option ℚ
  | e1 :: e2 :: rest =>
    match e1.metadata.image_position, e2.metadata.image_position with
    | some pos1, some pos2 =>
      if 3 ≤ pos1.length ∧ 3 ≤ pos2.length then
        some ((pos2.getD 0 0 - pos1.getD 0 0) * (pos2.getD 0 0 - pos1.getD 0 0) +
          (pos2.getD 1 0 - pos1.getD 1 0) * (pos2.getD 1 0 - pos1.getD 1 0) +
          (pos2.getD 2 0 - pos1.getD 2 0) * (pos2.getD 2 0 - pos1.getD 2 0))
      else findPosPairDistSq (e2 :: rest)
    | _, _ => findPosPairDistSq (e2 :: rest)
  | _ => none

/-- The slice-location loop of `compute_slice_spacing`: `|loc2 - loc1|` for
the first adjacent pair with both locations present. -/
def findLocPairDiff : List DicomDirectoryEntry → Option ℚ
  | e1 :: e2 :: rest =>
    match e1.metadata.slice_location, e2.metadata.slice_location with
    | some loc1, some loc2 => some (abs (loc2 - loc1))
    | _, _ => findLocPairDiff (e2 :: rest)
  | _ => none

/-- `compute_slice_spacing`: `None` for fewer than two entries; else the
first adjacent pair of valid positions (Euclidean distance, squared here —
see `findPosPairDistSq`); else the first adjacent pair of slice locations;
else the first slice thickness; else `None`. -/
def compute_slice_spacing (entries : List DicomDirectoryEntry) : Option ℚ :=
  if entries.length < 2 then none
  else
    match (if entries.any entryHasPos3 then findPosPairDistSq entries else none) with
    | some d => some d
    | none =>
      match (if entries.any fun e => e.metadata.slice_location.isSome
             then findLocPairDiff entries else none) with
      | some d => some d
      | none => entries.findSome? fun e => e.metadata.slice_thickness

/-- `DicomImage` (pixel parameters relevant to volume assembly). -/
structure DicomImage where
  width : ℕ
  height : ℕ
  bits_allocated : ℕ
  bits_stored : ℕ
  high_bit : ℕ
  pixel_representation : ℕ
  photometric_interpretation : String
  samples_per_pixel : ℕ
  planar_configuration : Option ℕ
  pixel_data : List UInt8
deriving Repr, DecidableEq

/-- `DicomVolume`. -/
structure DicomVolume where
  width : ℕ
  height : ℕ
  depth : ℕ
  spacing : ℚ × ℚ × ℚ
  data_type : String
  num_components : ℕ
  slices : List (List UInt8)
deriving Repr, DecidableEq

/-- `load_volume_from_directory`, with its two external collaborators made
explicit: `px` models `extract_pixel_data` and `enc` models
`get_encoded_image` (both keyed by path).  The directory is the abstract
file list fed to `load_dicom_directory`.  The `[]` arm of the match on the
sorted list is unreachable (sorting preserves emptiness) and re-uses the
empty-directory error. -/
def load_volume_from_directory
    (px : String → Except String DicomImage)
    (enc : String → Except String (List UInt8))
    (dir : List ScanFile) : Except String DicomVolume :=
  let entries0 := load_dicom_directory dir
  if entries0.isEmpty then Except.error "No valid DICOM files found in directory"
  else
    match sort_dicom_entries_by_position entries0 with
    | [] => Except.error "No valid DICOM files found in directory"
    | first_entry :: rest =>
      match px first_entry.path with
      | Except.error e => Except.error e
      | Except.ok first_image =>
        match (first_entry :: rest).mapM fun entry => enc entry.path with
        | Except.error e => Except.error e
        | Except.ok slice_images =>
          let spacing_xy : ℚ × ℚ :=
            match first_entry.metadata.pixel_spacing with
            | some ps => if 2 ≤ ps.length then (ps.getD 0 0, ps.getD 1 0) else (1, 1)
            | none => (1, 1)
          let spacing_z := (compute_slice_spacing (first_entry :: rest)).getD 1
          Except.ok
            { width := first_image.width, height := first_image.height,
              depth := slice_images.length,
              spacing := (spacing_xy.1, spacing_xy.2, spacing_z),
              data_type :=
                if first_image.bits_allocated ≤ 8 then "unsigned char"
                else "unsigned short",
              num_components := first_image.samples_per_pixel,
              slices := slice_images }

deriving instance DecidableEq for Except

/-- Two spacing-free DICOM files: no pixel spacing, no position, no slice
location, no slice thickness anywhere. -/
def dirC1 : List ScanFile :=
  [{ path := "/v/s1.dcm", isDir := false, opens := some (mdNumbered (some 1) (some 1)) },
   { path := "/v/s2.dcm", isDir := false, opens := some (mdNumbered (some 1) (some 2)) }]

/-- Pixel collaborator that always decodes a 2×2 8-bit single-sample image. -/
def pxC1 : String → Except String DicomImage := fun _ =>
  Except.ok { width := 2, height := 2, bits_allocated := 8, bits_stored := 8,
              high_bit := 7, pixel_representation := 0,
              photometric_interpretation := "MONOCHROME2", samples_per_pixel := 1,
              planar_configuration := none, pixel_data := [0, 0, 0, 0] }

/-- Encoder collaborator that always produces a one-byte image. -/
def encC1 : String → Except String (List UInt8) := fun _ => Except.ok [7]

/-- Counterexample to C1 as stated: on a directory whose first sorted entry
has NO pixel spacing and which offers NO Z-spacing source at all (no valid
positions, no slice locations, no slice thickness), `load_volume_from_directory`
does not fail — it returns a volume with the substituted default spacing
(1, 1, 1). -/
theorem C1_counterexample :
    ((sort_dicom_entries_by_position (load_dicom_directory dirC1)).head?.map
        fun e => e.metadata.pixel_spacing) = some none ∧
      compute_slice_spacing (sort_dicom_entries_by_position (load_dicom_directory dirC1)) =
        none ∧
      load_volume_from_directory pxC1 encC1 dirC1 =
        Except.ok { width := 2, height := 2, depth := 2, spacing := (1, 1, 1),
                    data_type := "unsigned char", num_components := 1,
                    slices := [[7], [7]] } :=
  ⟨by decide, by decide, by decide⟩

/-- C1 (amended): volume assembly is LENIENT about spacing.  When the first
sorted entry has no pixel-spacing field and no Z-spacing source is
available, it does not error: provided pixel extraction and per-slice
encoding succeed, it returns a volume whose spacing is the substituted
default (1, 1, 1). -/
theorem C1_load_volume_default_spacing
    (px : String → Except String DicomImage)
    (enc : String → Except String (List UInt8))
    (dir : List ScanFile)
    (first_entry : DicomDirectoryEntry) (rest : List DicomDirectoryEntry)
    (hs : sort_dicom_entries_by_position (load_dicom_directory dir) = first_entry :: rest)
    (hps : first_entry.metadata.pixel_spacing = none)
    (hz : compute_slice_spacing (first_entry :: rest) = none)
    (img : DicomImage) (hpx : px first_entry.path = Except.ok img)
    (slices : List (List UInt8))
    (henc : (first_entry :: rest).mapM (fun entry => enc entry.path) = Except.ok slices) :
    load_volume_from_directory px enc dir =
      Except.ok { width := img.width, height := img.height, depth := slices.length,
                  spacing := (1, 1, 1),
                  data_type := if img.bits_allocated ≤ 8 then "unsigned char"
                    else "unsigned short",
                  num_components := img.samples_per_pixel, slices := slices } := by
  have hne : (load_dicom_directory dir).isEmpty = false := by
    cases he : load_dicom_directory dir with
    | nil =>
      rw [he] at hs
      exact absurd hs (by simp [sort_dicom_entries_by_position, sort_by_position_fallback,
        sort_dicom_entries, rustSortBy, validOriPos])
    | cons x xs => simp [List.isEmpty]
  unfold load_volume_from_directory
  simp only [hne, Bool.false_eq_true, if_false, hs, hpx, henc, hps, hz]
  rfl

/-- The first entry of `dirC1` after scanning and sorting. -/
def entC1a : DicomDirectoryEntry :=
  { path := "/v/s1.dcm", metadata := mdNumbered (some 1) (some 1), is_valid := true }

/-- The second entry of `dirC1` after scanning and sorting. -/
def entC1b : DicomDirectoryEntry :=
  { path := "/v/s2.dcm", metadata := mdNumbered (some 1) (some 2), is_valid := true }

/-- Witness for the amended C1 theorem at the concrete spacing-free
directory: every hypothesis is discharged by computation and the conclusion
is the theorem's own instance. -/
theorem C1_load_volume_default_spacing_witness :
    (sort_dicom_entries_by_position (load_dicom_directory dirC1) = entC1a :: [entC1b] ∧
      entC1a.metadata.pixel_spacing = none ∧
      compute_slice_spacing (entC1a :: [entC1b]) = none ∧
      pxC1 entC1a.path = Except.ok
        { width := 2, height := 2, bits_allocated := 8, bits_stored := 8,
          high_bit := 7, pixel_representation := 0,
          photometric_interpretation := "MONOCHROME2", samples_per_pixel := 1,
          planar_configuration := none, pixel_data := [0, 0, 0, 0] } ∧
      (entC1a :: [entC1b]).mapM (fun entry => encC1 entry.path) = Except.ok [[7], [7]]) ∧
    load_volume_from_directory pxC1 encC1 dirC1 =
      Except.ok { width := 2, height := 2, depth := 2, spacing := (1, 1, 1),
                  data_type := "unsigned char", num_components := 1,
                  slices := [[7], [7]] } :=
  ⟨⟨by decide, by decide, by decide, by decide, by decide⟩,
    C1_load_volume_default_spacing pxC1 encC1 dirC1 entC1a [entC1b]
      (by decide) (by decide) (by decide)
      { width := 2, height := 2, bits_allocated := 8, bits_stored := 8,
        high_bit := 7, pixel_representation := 0,
        photometric_interpretation := "MONOCHROME2", samples_per_pixel := 1,
        planar_configuration := none, pixel_data := [0, 0, 0, 0] }
      (by decide) [[7], [7]] (by decide)⟩

/-! ## organize_dicom_entries (lines 1490-1589) and sort_dicom_hierarchy (1592-1628) -/

/-- The `DicomInstance` built from a valid entry at the top of the
organize loop. -/
def entryToInstance (entry : DicomDirectoryEntry) : DicomInstance :=
  { path := entry.path, sop_instance_uid := entry.metadata.sop_instance_uid,
    instance_number := entry.metadata.instance_number,
    image_position := entry.metadata.image_position,
    slice_location := entry.metadata.slice_location,
    is_valid := entry.is_valid }

/-- The fresh series created when no series with the entry's UID exists. -/
def newSeriesOf (series_uid : String) (meta : DicomMetadata) (inst : DicomInstance) :
    DicomSeries :=
  { series_instance_uid := some series_uid, series_number := meta.series_number,
    series_description := meta.series_description, modality := meta.modality,
    instances := [inst] }

/-- The fresh study created when no study with the entry's UID exists. -/
def newStudyOf (study_uid series_uid : String) (meta : DicomMetadata)
    (inst : DicomInstance) : DicomStudy :=
  { study_instance_uid := some study_uid, study_date := meta.study_date,
    study_description := meta.study_description,
    accession_number := meta.accession_number,
    series := [newSeriesOf series_uid meta inst] }

/-- The inner `for series in &mut study.series` loop: push the instance
onto the first series whose UID matches (then `break`); `none` models
`found_series = false`. -/
def addToMatchingSeries (series_uid : String) (inst : DicomInstance) :
    List DicomSeries → Option (List DicomSeries)
  | [] => none
  | s :: rest =>
    match s.series_instance_uid with
    | some existing_series_uid =>
      if existing_series_uid = series_uid then
        some ({ s with instances := s.instances ++ [inst] } :: rest)
      else (addToMatchingSeries series_uid inst rest).map (s :: ·)
    | none => (addToMatchingSeries series_uid inst rest).map (s :: ·)

/-- The `for study in &mut patient.studies` loop: on the first study whose
UID matches, run the series loop, appending a fresh series when no series
matched; `none` models `found_study = false`. -/
def addToMatchingStudy (study_uid series_uid : String) (meta : DicomMetadata)
    (inst : DicomInstance) : List DicomStudy → Option (List DicomStudy)
  | [] => none
  | st :: rest =>
    match st.study_instance_uid with
    | some existing_uid =>
      if existing_uid = study_uid then
        some
          ((match addToMatchingSeries series_uid inst st.series with
            | some series2 => { st with series := series2 }
            | none =>
              { st with series := st.series ++ [newSeriesOf series_uid meta inst] }) :: rest)
      else (addToMatchingStudy study_uid series_uid meta inst rest).map (st :: ·)
    | none => (addToMatchingStudy study_uid series_uid meta inst rest).map (st :: ·)

/-- Insert the entry's instance into one patient: matched study updated in
place, otherwise a fresh study is appended. -/
def addEntryToPatient (study_uid series_uid : String) (meta : DicomMetadata)
    (inst : DicomInstance) (patient : DicomPatient) : DicomPatient :=
  match addToMatchingStudy study_uid series_uid meta inst patient.studies with
  | some studies2 => { patient with studies := studies2 }
  | none =>
    { patient with studies := patient.studies ++ [newStudyOf study_uid series_uid meta inst] }

/-- `patients_map.entry(pid).or_insert_with(..)` followed by the mutation
`f`, on a `HashMap` modelled as an association list in insertion order
(iteration order of the Rust `HashMap` is unspecified; the verified claims
do not depend on it). -/
def insertOrUpdate (pm : List (String × DicomPatient)) (pid : String)
    (fresh : DicomPatient) (f : DicomPatient → DicomPatient) :
    List (String × DicomPatient) :=
  match pm with
  | [] => [(pid, f fresh)]
  | (k, p) :: rest =>
    if k = pid then (k, f p) :: rest
    else (k, p) :: insertOrUpdate rest pid fresh f

/-- One iteration of the organize loop: invalid entries are skipped, valid
ones are keyed by (patient id, study UID, series UID) with the "UNKNOWN"
default. -/
def organizeStep (pm : List (String × DicomPatient)) (entry : DicomDirectoryEntry) :
    List (String × DicomPatient) :=
  if entry.is_valid then
    let meta := entry.metadata
    let patient_id := meta.patient_id.getD "UNKNOWN"
    let study_uid := meta.study_instance_uid.getD "UNKNOWN"
    let series_uid := meta.series_instance_uid.getD "UNKNOWN"
    let inst := entryToInstance entry
    insertOrUpdate pm patient_id
      { patient_id := some patient_id, patient_name := meta.patient_name, studies := [] }
      (addEntryToPatient study_uid series_uid meta inst)
  else pm

/-- `sort_dicom_hierarchy`: patients by name, studies by date descending,
series by series number (nulls last), instances by the spatial sorter. -/
def sort_dicom_hierarchy (patients : List DicomPatient) : List DicomPatient :=
  (rustSortBy
      (fun a b => cmpLO (a.patient_name.getD "Unknown") (b.patient_name.getD "Unknown"))
      patients).map fun patient =>
    { patient with studies :=
        (rustSortBy (fun a b => cmpLO (b.study_date.getD "") (a.study_date.getD ""))
            patient.studies).map fun study =>
          { study with series :=
              (rustSortBy (fun a b => cmpOptInt a.series_number b.series_number)
                  study.series).map fun s =>
                { s with instances := sort_instances_by_position s.instances } } }

/-- `organize_dicom_entries`: single fold over the entries followed by the
hierarchy sort (the Rust function always returns `Ok`). -/
def organize_dicom_entries (entries : List DicomDirectoryEntry) : List DicomPatient :=
  sort_dicom_hierarchy ((entries.foldl organizeStep []).map Prod.snd)

/-- The series grouping key of an entry. -/
def entrySeriesKey (e : DicomDirectoryEntry) : String :=
  e.metadata.series_instance_uid.getD "UNKNOWN"

theorem addToMatchingSeries_eq_none (series_uid : String) (inst : DicomInstance)
    (l : List DicomSeries) :
    addToMatchingSeries series_uid inst l = none ↔
      some series_uid ∉ l.map fun s => s.series_instance_uid := by
  induction l with
  | nil => simp [addToMatchingSeries]
  | cons s rest ih =>
    simp only [addToMatchingSeries, List.map_cons, List.mem_cons]
    cases hs : s.series_instance_uid with
    | none =>
      dsimp only
      rw [Option.map_eq_none', ih]
      simp
    | some existing =>
      dsimp only
      by_cases he : existing = series_uid
      · subst he
        simp
      · rw [if_neg he, Option.map_eq_none', ih]
        simp [Ne.symm he]

theorem addToMatchingSeries_eq_some (series_uid : String) (inst : DicomInstance)
    (l l2 : List DicomSeries) (h : addToMatchingSeries series_uid inst l = some l2) :
    (l2.map fun s => s.series_instance_uid) = (l.map fun s => s.series_instance_uid) ∧
      (l2.map fun s => s.instances.length).sum =
        (l.map fun s => s.instances.length).sum + 1 := by
  induction l generalizing l2 with
  | nil => simp [addToMatchingSeries] at h
  | cons s rest ih =>
    rw [addToMatchingSeries] at h
    cases hs : s.series_instance_uid with
    | none =>
      rw [hs] at h
      dsimp only at h
      rw [Option.map_eq_some'] at h
      obtain ⟨l2t, hrec, rfl⟩ := h
      obtain ⟨hmap, hsum⟩ := ih l2t hrec
      constructor
      · simp [hmap]
      · simp only [List.map_cons, List.sum_cons, hsum]
        omega
    | some existing =>
      rw [hs] at h
      dsimp only at h
      by_cases he : existing = series_uid
      · rw [if_pos he] at h
        obtain rfl := Option.some.inj h
        constructor
        · simp [hs]
        · simp only [List.map_cons, List.sum_cons, List.length_append]
          simp
          omega
      · rw [if_neg he, Option.map_eq_some'] at h
        obtain ⟨l2t, hrec, rfl⟩ := h
        obtain ⟨hmap, hsum⟩ := ih l2t hrec
        constructor
        · simp [hmap]
        · simp only [List.map_cons, List.sum_cons, hsum]
          omega

/-- The invariant of the organize fold when all entries share one patient
id and one study UID: the map holds exactly one patient with exactly one
study whose series are keyed, without duplicates, by the set of series UIDs
processed so far, and whose instances count the processed entries. -/
def orgInv (pid suid : String) (keys : List String)
    (pm : List (String × DicomPatient)) : Prop :=
  (keys = [] ∧ pm = []) ∨
    ∃ (patient : DicomPatient) (st : DicomStudy) (ks : List String),
      pm = [(pid, patient)] ∧ patient.studies = [st] ∧
      st.study_instance_uid = some suid ∧
      (st.series.map fun s => s.series_instance_uid) = ks.map some ∧
      ks.Nodup ∧ ks.toFinset = keys.toFinset ∧
      (st.series.map fun s => s.instances.length).sum = keys.length

theorem orgInv_step (pid suid : String) (keys : List String)
    (pm : List (String × DicomPatient)) (e : DicomDirectoryEntry)
    (hv : e.is_valid = true) (hp : e.metadata.patient_id = some pid)
    (hs : e.metadata.study_instance_uid = some suid)
    (hinv : orgInv pid suid keys pm) :
    orgInv pid suid (keys ++ [entrySeriesKey e]) (organizeStep pm e) := by
  unfold organizeStep
  rw [hv]
  simp only [if_true, hp, hs, Option.getD_some]
  rcases hinv with ⟨hk, hpm⟩ | ⟨patient, st, ks, hpm, hstudies, hstuid, hkeys, hnodup, hfin, hsum⟩
  · subst hk
    subst hpm
    right
    refine ⟨_, newStudyOf suid (entrySeriesKey e) e.metadata (entryToInstance e),
      [entrySeriesKey e], rfl, ?_, rfl, ?_, ?_, ?_, ?_⟩
    · simp [insertOrUpdate, addEntryToPatient, addToMatchingStudy, entrySeriesKey]
    · simp [newStudyOf, newSeriesOf]
    · simp
    · simp
    · simp [newStudyOf, newSeriesOf]
  · subst hpm
    right
    simp only [insertOrUpdate, if_pos rfl]
    have hstudy : addToMatchingStudy suid (e.metadata.series_instance_uid.getD "UNKNOWN")
        e.metadata (entryToInstance e) patient.studies =
        some [(match addToMatchingSeries (e.metadata.series_instance_uid.getD "UNKNOWN")
                  (entryToInstance e) st.series with
               | some series2 => { st with series := series2 }
               | none => { st with series := st.series ++
                   [newSeriesOf (e.metadata.series_instance_uid.getD "UNKNOWN")
                     e.metadata (entryToInstance e)] })] := by
      rw [hstudies, addToMatchingStudy, hstuid]
      simp
    cases hms : addToMatchingSeries (e.metadata.series_instance_uid.getD "UNKNOWN")
        (entryToInstance e) st.series with
    | some series2 =>
      rw [hms] at hstudy
      obtain ⟨hmap, hsum2⟩ := addToMatchingSeries_eq_some _ _ _ _ hms
      have hmem : entrySeriesKey e ∈ ks := by
        by_contra hne
        have : addToMatchingSeries (e.metadata.series_instance_uid.getD "UNKNOWN")
            (entryToInstance e) st.series = none := by
          rw [addToMatchingSeries_eq_none, hkeys]
          intro hin
          rw [List.mem_map] at hin
          obtain ⟨k, hk, hkeq⟩ := hin
          obtain rfl := Option.some.inj hkeq.symm
          exact hne (by simpa [entrySeriesKey] using hk)
        rw [this] at hms
        exact Option.noConfusion hms
      refine ⟨{ patient with studies := _ }, { st with series := series2 }, ks, ?_, rfl,
        hstuid, ?_, hnodup, ?_, ?_⟩
      · simp [addEntryToPatient, hstudy]
      · rw [hmap, hkeys]
      · rw [List.toFinset_append, hfin]
        have hsub : ([entrySeriesKey e] : List String).toFinset ⊆ keys.toFinset := by
          simp only [List.toFinset_cons, List.toFinset_nil, insert_emptyc_eq,
            Finset.singleton_subset_iff]
          rw [← hfin]
          simpa using hmem
        rw [Finset.union_eq_left.mpr hsub]
      · rw [hsum2, hsum]
        simp
    | none =>
      rw [hms] at hstudy
      have hnotmem : entrySeriesKey e ∉ ks := by
        rw [addToMatchingSeries_eq_none, hkeys] at hms
        intro hin
        exact hms (List.mem_map_of_mem some (by simpa [entrySeriesKey] using hin))
      refine ⟨{ patient with studies := _ },
        { st with series := st.series ++
            [newSeriesOf (e.metadata.series_instance_uid.getD "UNKNOWN")
              e.metadata (entryToInstance e)] },
        ks ++ [entrySeriesKey e], ?_, rfl, hstuid, ?_, ?_, ?_, ?_⟩
      · simp [addEntryToPatient, hstudy]
      · simp only [List.map_append, hkeys, newSeriesOf]
        simp [entrySeriesKey]
      · simp [List.nodup_append, hnodup, hnotmem]
      · rw [List.toFinset_append, List.toFinset_append, hfin]
      · simp only [List.map_append, List.sum_append, hsum, newSeriesOf]
        simp

theorem orgInv_foldl (pid suid : String) (entries : List DicomDirectoryEntry)
    (hval : ∀ e ∈ entries, e.is_valid = true)
    (hpid : ∀ e ∈ entries, e.metadata.patient_id = some pid)
    (hsuid : ∀ e ∈ entries, e.metadata.study_instance_uid = some suid)
    (keys : List String) (pm : List (String × DicomPatient))
    (hinv : orgInv pid suid keys pm) :
    orgInv pid suid (keys ++ entries.map entrySeriesKey) (entries.foldl organizeStep pm) := by
  induction entries generalizing keys pm with
  | nil => simpa using hinv
  | cons e rest ih =>
    simp only [List.foldl_cons, List.map_cons]
    have hstep := orgInv_step pid suid keys pm e
      (hval e (List.mem_cons_self _ _)) (hpid e (List.mem_cons_self _ _))
      (hsuid e (List.mem_cons_self _ _)) hinv
    have hres := ih (fun x hx => hval x (List.mem_cons_of_mem _ hx))
      (fun x hx => hpid x (List.mem_cons_of_mem _ hx))
      (fun x hx => hsuid x (List.mem_cons_of_mem _ hx))
      (keys ++ [entrySeriesKey e]) _ hstep
    simpa [List.append_assoc] using hres

theorem sort_instances_length (l : List DicomInstance) :
    (sort_instances_by_position l).length = l.length := by
  unfold sort_instances_by_position
  repeat' split
  all_goals exact rustSortBy_length _ _

theorem rustSortBy_singleton {α : Type} (c : α → α → Ordering) (x : α) :
    rustSortBy c [x] = [x] := rfl

/-- C4: for every nonempty list of valid entries that all carry the same
patient id and the same study instance UID (and each a series UID), the
organizer produces exactly one patient containing exactly one study; that
study contains exactly one series per distinct series UID, and the total
instance count over its series equals the number of entries. -/
theorem C4_organize_single_study_series_counts
    (entries : List DicomDirectoryEntry) (pid suid : String)
    (hne : entries ≠ [])
    (hval : ∀ e ∈ entries, e.is_valid = true)
    (hpid : ∀ e ∈ entries, e.metadata.patient_id = some pid)
    (hsuid : ∀ e ∈ entries, e.metadata.study_instance_uid = some suid)
    (hser : ∀ e ∈ entries, e.metadata.series_instance_uid.isSome) :
    ∃ (patient : DicomPatient) (st : DicomStudy),
      organize_dicom_entries entries = [patient] ∧
      patient.studies = [st] ∧
      st.series.length =
        ((entries.map fun e => e.metadata.series_instance_uid.getD "UNKNOWN").toFinset).card ∧
      (st.series.map fun s => s.instances.length).sum = entries.length := by
  have hinv := orgInv_foldl pid suid entries hval hpid hsuid [] [] (Or.inl ⟨rfl, rfl⟩)
  rw [List.nil_append] at hinv
  rcases hinv with ⟨hk, -⟩ | ⟨patient, st, ks, hpm, hstudies, hstuid, hkeys, hnodup, hfin, hsum⟩
  · exact absurd (List.map_eq_nil_iff.mp hk) hne
  · refine ⟨{ patient with studies :=
        [{ st with series :=
            (rustSortBy (fun a b => cmpOptInt a.series_number b.series_number)
                st.series).map fun s =>
              { s with instances := sort_instances_by_position s.instances } }] },
      { st with series :=
          (rustSortBy (fun a b => cmpOptInt a.series_number b.series_number)
              st.series).map fun s =>
            { s with instances := sort_instances_by_position s.instances } },
      ?_, rfl, ?_, ?_⟩
    · unfold organize_dicom_entries
      rw [hpm]
      show sort_dicom_hierarchy [patient] = _
      unfold sort_dicom_hierarchy
      rw [rustSortBy_singleton, List.map_cons, List.map_nil, hstudies,
        rustSortBy_singleton, List.map_cons, List.map_nil]
    · show ((rustSortBy _ st.series).map _).length = _
      rw [List.length_map, rustSortBy_length]
      have hlen : st.series.length = ks.length := by
        have := congrArg List.length hkeys
        simpa using this
      rw [hlen, ← List.toFinset_card_of_nodup hnodup, hfin]
      rfl
    · dsimp only
      rw [List.map_map]
      have hfun : ((fun s => s.instances.length) ∘ fun s : DicomSeries =>
          { s with instances := sort_instances_by_position s.instances }) =
          fun s : DicomSeries => s.instances.length := by
        funext s
        exact sort_instances_length s.instances
      rw [hfun]
      have hperm : ((rustSortBy (fun a b => cmpOptInt a.series_number b.series_number)
          st.series).map fun s => s.instances.length).Perm
          (st.series.map fun s => s.instances.length) :=
        (rustSortBy_perm _ _).map _
      rw [hperm.sum_eq, hsum, List.length_map]

/-- A valid entry of patient "P1", study "ST1", and the given series UID. -/
def entOrg (p ser : String) : DicomDirectoryEntry :=
  { path := p,
    metadata := { emptyMetadata with
      patient_id := some "P1", study_instance_uid := some "ST1",
      series_instance_uid := some ser },
    is_valid := true }

/-- Witness for C4: three entries of one study spread over two series give
one patient, one study, two series and three instances. -/
theorem C4_organize_single_study_series_counts_witness :
    ([entOrg "f1" "SE1", entOrg "f2" "SE2", entOrg "f3" "SE1"] ≠
        ([] : List DicomDirectoryEntry) ∧
      (∀ e ∈ [entOrg "f1" "SE1", entOrg "f2" "SE2", entOrg "f3" "SE1"],
        DicomDirectoryEntry.is_valid e = true) ∧
      (∀ e ∈ [entOrg "f1" "SE1", entOrg "f2" "SE2", entOrg "f3" "SE1"],
        (DicomDirectoryEntry.metadata e).patient_id = some "P1") ∧
      (∀ e ∈ [entOrg "f1" "SE1", entOrg "f2" "SE2", entOrg "f3" "SE1"],
        (DicomDirectoryEntry.metadata e).study_instance_uid = some "ST1") ∧
      (∀ e ∈ [entOrg "f1" "SE1", entOrg "f2" "SE2", entOrg "f3" "SE1"],
        ((DicomDirectoryEntry.metadata e).series_instance_uid).isSome)) ∧
    ∃ (patient : DicomPatient) (st : DicomStudy),
      organize_dicom_entries [entOrg "f1" "SE1", entOrg "f2" "SE2", entOrg "f3" "SE1"] =
        [patient] ∧
      patient.studies = [st] ∧
      st.series.length =
        (([entOrg "f1" "SE1", entOrg "f2" "SE2", entOrg "f3" "SE1"].map
          fun e => e.metadata.series_instance_uid.getD "UNKNOWN").toFinset).card ∧
      (st.series.map fun s => s.instances.length).sum =
        [entOrg "f1" "SE1", entOrg "f2" "SE2", entOrg "f3" "SE1"].length :=
  ⟨⟨by decide, by decide, by decide, by decide, by decide⟩,
    C4_organize_single_study_series_counts _ "P1" "ST1"
      (by decide) (by decide) (by decide) (by decide) (by decide)⟩

/-! ## propagate_study_metadata (lines 1900-1965) and the metadata collectors -/

/-- The inner instance loop of `collect_common_study_metadata`: fill absent
patient name/id from each readable instance file, breaking as soon as both
are present.  `fs` models `open_file` + `extract_metadata` keyed by path
(`none`: the open fails; extraction itself is total). -/
def collectStudyFromInstances (fs : String → Option DicomMetadata)
    (cm : DicomMetadata) : List DicomInstance → DicomMetadata
  | [] => cm
  | inst :: rest =>
    if inst.is_valid then
      match fs inst.path with
      | some metadata =>
        let cm2 := { cm with
          patient_name := if cm.patient_name.isNone then metadata.patient_name
            else cm.patient_name,
          patient_id := if cm.patient_id.isNone then metadata.patient_id
            else cm.patient_id }
        if cm2.patient_name.isSome ∧ cm2.patient_id.isSome then cm2
        else collectStudyFromInstances fs cm2 rest
      | none => collectStudyFromInstances fs cm rest
    else collectStudyFromInstances fs cm rest

/-- The outer series loop of `collect_common_study_metadata` with its own
break once both patient fields are present. -/
def collectStudyFromSeries (fs : String → Option DicomMetadata)
    (cm : DicomMetadata) : List DicomSeries → DicomMetadata
  | [] => cm
  | s :: rest =>
    let cm2 := collectStudyFromInstances fs cm s.instances
    if cm2.patient_name.isSome ∧ cm2.patient_id.isSome then cm2
    else collectStudyFromSeries fs cm2 rest

/-- `collect_common_study_metadata`: study fields seeded from the study
record, patient fields filled from instance files. -/
def collect_common_study_metadata (fs : String → Option DicomMetadata)
    (study : DicomStudy) : DicomMetadata :=
  collectStudyFromSeries fs
    { emptyMetadata with
      study_instance_uid := study.study_instance_uid,
      study_date := study.study_date,
      study_description := study.study_description,
      accession_number := study.accession_number }
    study.series

/-- The instance loop of `collect_common_series_metadata`: fill the absent
series-level fields from each readable instance file, breaking once
modality, description and series number are all present. -/
def collectSeriesFromInstances (fs : String → Option DicomMetadata)
    (cm : DicomMetadata) : List DicomInstance → DicomMetadata
  | [] => cm
  | inst :: rest =>
    if inst.is_valid then
      match fs inst.path with
      | some metadata =>
        let cm2 := { cm with
          modality := if cm.modality.isNone then metadata.modality else cm.modality,
          series_description := if cm.series_description.isNone then
            metadata.series_description else cm.series_description,
          series_instance_uid := if cm.series_instance_uid.isNone then
            metadata.series_instance_uid else cm.series_instance_uid,
          series_number := if cm.series_number.isNone then metadata.series_number
            else cm.series_number,
          slice_thickness := if cm.slice_thickness.isNone then metadata.slice_thickness
            else cm.slice_thickness,
          spacing_between_slices := if cm.spacing_between_slices.isNone then
            metadata.spacing_between_slices else cm.spacing_between_slices,
          pixel_spacing := if cm.pixel_spacing.isNone then metadata.pixel_spacing
            else cm.pixel_spacing }
        if cm2.modality.isSome ∧ cm2.series_description.isSome ∧ cm2.series_number.isSome
        then cm2
        else collectSeriesFromInstances fs cm2 rest
      | none => collectSeriesFromInstances fs cm rest
    else collectSeriesFromInstances fs cm rest

/-- `collect_common_series_metadata`: series fields seeded from the series
record, then filled from instance files. -/
def collect_common_series_metadata (fs : String → Option DicomMetadata)
    (series : DicomSeries) : DicomMetadata :=
  collectSeriesFromInstances fs
    { emptyMetadata with
      series_instance_uid := series.series_instance_uid,
      series_number := series.series_number,
      series_description := series.series_description,
      modality := series.modality }
    series.instances

/-- The per-instance fill of `propagate_study_metadata`: study-level fields
from the study commons, series-level fields from the series commons, each
assignment guarded by the target field being absent. -/
def fill_instance_metadata (im : DicomMetadata) (common series_md : DicomMetadata) :
    DicomMetadata :=
  { im with
    patient_name := if im.patient_name.isNone then common.patient_name else im.patient_name,
    patient_id := if im.patient_id.isNone then common.patient_id else im.patient_id,
    study_date := if im.study_date.isNone then common.study_date else im.study_date,
    study_description := if im.study_description.isNone then common.study_description
      else im.study_description,
    accession_number := if im.accession_number.isNone then common.accession_number
      else im.accession_number,
    study_instance_uid := if im.study_instance_uid.isNone then common.study_instance_uid
      else im.study_instance_uid,
    series_description := if im.series_description.isNone then series_md.series_description
      else im.series_description,
    modality := if im.modality.isNone then series_md.modality else im.modality,
    series_number := if im.series_number.isNone then series_md.series_number
      else im.series_number,
    series_instance_uid := if im.series_instance_uid.isNone then
      series_md.series_instance_uid else im.series_instance_uid }

/-- The instance update of `propagate_study_metadata`: re-open the file,
fill the re-extracted metadata, and fill ONLY the instance's absent
`sop_instance_uid` / `instance_number` from it. -/
def propagate_instance (fs : String → Option DicomMetadata)
    (common series_md : DicomMetadata) (inst : DicomInstance) : DicomInstance :=
  if inst.is_valid then
    match fs inst.path with
    | some instance_metadata0 =>
      let instance_metadata := fill_instance_metadata instance_metadata0 common series_md
      { inst with
        sop_instance_uid := if inst.sop_instance_uid.isNone then
          instance_metadata.sop_instance_uid else inst.sop_instance_uid,
        instance_number := if inst.instance_number.isNone then
          instance_metadata.instance_number else inst.instance_number }
    | none => inst
  else inst

/-- `propagate_study_metadata`: for each series, collect the series commons
(from the not-yet-modified instances, as in the source where only the
instance identifiers are updated afterwards) and update each instance. -/
def propagate_study_metadata (fs : String → Option DicomMetadata)
    (study : DicomStudy) : DicomStudy :=
  { study with series := study.series.map (fun series =>
      { series with instances := series.instances.map (fun inst =>
          propagate_instance fs (collect_common_study_metadata fs study)
            (collect_common_series_metadata fs series) inst) }) }

/-- Frame relation on instances: identity and spatial fields unchanged, and
a present identifier is never overwritten. -/
def instanceFrame (old new : DicomInstance) : Prop :=
  new.path = old.path ∧ new.image_position = old.image_position ∧
    new.slice_location = old.slice_location ∧ new.is_valid = old.is_valid ∧
    (∀ v, old.sop_instance_uid = some v → new.sop_instance_uid = some v) ∧
    (∀ v, old.instance_number = some v → new.instance_number = some v)

theorem propagate_instance_frame (fs : String → Option DicomMetadata)
    (common series_md : DicomMetadata) (inst : DicomInstance) :
    instanceFrame inst (propagate_instance fs common series_md inst) := by
  unfold propagate_instance instanceFrame
  by_cases hv : inst.is_valid
  · rw [if_pos hv]
    cases hfs : fs inst.path with
    | none => exact ⟨rfl, rfl, rfl, rfl, fun v hv2 => hv2, fun v hv2 => hv2⟩
    | some im0 =>
      dsimp only
      refine ⟨rfl, rfl, rfl, rfl, ?_, ?_⟩
      · intro v hv2
        simp [hv2]
      · intro v hv2
        simp [hv2]
  · rw [if_neg hv]
    exact ⟨rfl, rfl, rfl, rfl, fun v hv2 => hv2, fun v hv2 => hv2⟩

/-- C5: the metadata propagator never overwrites a present value.  First
conjunct: every field of the re-extracted per-instance metadata that is
`some` before the fill keeps its value (in particular an instance whose own
file carries modality "CT" keeps it even when the series commons say "MR").
Second conjunct: propagation leaves every study and series field unchanged
and satisfies the instance frame: identity and spatial fields untouched,
present `sop_instance_uid` / `instance_number` kept, only absent ones
filled. -/
theorem C5_propagate_study_metadata_never_overwrites
    (fs : String → Option DicomMetadata) (study : DicomStudy)
    (im common series_md : DicomMetadata) :
    ((∀ v, im.modality = some v →
        (fill_instance_metadata im common series_md).modality = some v) ∧
      (∀ v, im.patient_name = some v →
        (fill_instance_metadata im common series_md).patient_name = some v) ∧
      (∀ v, im.patient_id = some v →
        (fill_instance_metadata im common series_md).patient_id = some v) ∧
      (∀ v, im.study_date = some v →
        (fill_instance_metadata im common series_md).study_date = some v) ∧
      (∀ v, im.study_description = some v →
        (fill_instance_metadata im common series_md).study_description = some v) ∧
      (∀ v, im.accession_number = some v →
        (fill_instance_metadata im common series_md).accession_number = some v) ∧
      (∀ v, im.study_instance_uid = some v →
        (fill_instance_metadata im common series_md).study_instance_uid = some v) ∧
      (∀ v, im.series_description = some v →
        (fill_instance_metadata im common series_md).series_description = some v) ∧
      (∀ v, im.series_number = some v →
        (fill_instance_metadata im common series_md).series_number = some v) ∧
      (∀ v, im.series_instance_uid = some v →
        (fill_instance_metadata im common series_md).series_instance_uid = some v)) ∧
    ((propagate_study_metadata fs study).study_instance_uid = study.study_instance_uid ∧
      (propagate_study_metadata fs study).study_date = study.study_date ∧
      (propagate_study_metadata fs study).study_description = study.study_description ∧
      (propagate_study_metadata fs study).accession_number = study.accession_number ∧
      List.Forall₂ (fun old new : DicomSeries =>
          new.series_instance_uid = old.series_instance_uid ∧
          new.series_number = old.series_number ∧
          new.series_description = old.series_description ∧
          new.modality = old.modality ∧
          List.Forall₂ instanceFrame old.instances new.instances)
        study.series (propagate_study_metadata fs study).series) := by
  constructor
  · refine ⟨?_, ?_, ?_, ?_, ?_, ?_, ?_, ?_, ?_, ?_⟩ <;>
      (intro v hv; simp [fill_instance_metadata, hv])
  · refine ⟨rfl, rfl, rfl, rfl, ?_⟩
    show List.Forall₂ _ study.series (study.series.map _)
    rw [List.forall₂_map_right_iff, List.forall₂_same]
    intro series hmem
    refine ⟨rfl, rfl, rfl, rfl, ?_⟩
    show List.Forall₂ _ series.instances (series.instances.map _)
    rw [List.forall₂_map_right_iff, List.forall₂_same]
    intro inst hmem2
    exact propagate_instance_frame fs _ _ inst

/-- The CT-modality metadata of the C5 scenario. -/
def mdCT : DicomMetadata := { emptyMetadata with modality := some "CT" }

/-- The MR-modality series commons of the C5 scenario. -/
def mdMR : DicomMetadata := { emptyMetadata with modality := some "MR" }

/-- Witness for C5: with series-common modality "MR", a re-extracted
metadata carrying modality "CT" keeps "CT" after the fill. -/
theorem C5_propagate_study_metadata_never_overwrites_witness :
    mdCT.modality = some "CT" ∧
      (fill_instance_metadata mdCT emptyMetadata mdMR).modality = some "CT" :=
  ⟨rfl,
    (C5_propagate_study_metadata_never_overwrites (fun _ => none)
      { study_instance_uid := some "ST1", study_date := none,
        study_description := none, accession_number := none, series := [] }
      mdCT emptyMetadata mdMR).1.1 "CT" rfl⟩

/-! ## DICOMDIR records (parse_dicomdir_records, lines 2220-2268) -/

/-- `DicomValueType` (the value enum of the data model). -/
inductive DicomValueType where
  | str (s : String)
  | int (i : Int)
  | float (f : ℚ)
  | intList (v : List Int)
  | floatList (v : List ℚ)
  | strList (v : List String)
  | unknown
deriving Repr, DecidableEq

/-- Abstract parsed DICOMDIR record: the outcomes of the element lookups the
parser performs on it — the DIRECTORY_RECORD_TYPE string, the
REFERENCED_FILE_ID string, the allowlist metadata extracted by
`extract_dicomdir_record_metadata`, and the LOWER_LEVEL_DIRECTORY_RECORD
child sequence (absent sequence = empty list). -/
inductive DicomDirRecord where
  | mk (record_type : Option String) (referenced_file_id : Option String)
      (metadata : List (String × DicomValueType)) (lower_level : List DicomDirRecord)

/-- `DicomDirEntry` (path, type name, metadata map, children). -/
inductive DicomDirEntry where
  | mk (path : String) (type_name : String)
      (metadata : List (String × DicomValueType)) (children : List DicomDirEntry)

/-- The resolved path of an entry. -/
def DicomDirEntry.path : DicomDirEntry → String
  | .mk p _ _ _ => p

/-- The record-type discriminator of an entry. -/
def DicomDirEntry.type_name : DicomDirEntry → String
  | .mk _ t _ _ => t

/-- The children of an entry. -/
def DicomDirEntry.children : DicomDirEntry → List DicomDirEntry
  | .mk _ _ _ c => c

/-- The host path separator (`std::path::MAIN_SEPARATOR`, Unix). -/
def mainSeparatorStr : String := "/"

/-- `file_id.split('\\')` rejoined with the host separator. -/
def translateFileId (file_id : String) : String :=
  String.mk (List.intercalate mainSeparatorStr.data (file_id.data.splitOn '\\'))

/-- Model of `Path::join` + `to_str` on Unix-style string paths: an absolute
right-hand side replaces the base, otherwise the parts are joined with one
separator. -/
def pathJoin (base rel : String) : String :=
  if rel.data.head? = some '/' then rel
  else if base = "" then rel
  else if base.data.getLast? = some '/' then base ++ rel
  else base ++ "/" ++ rel

/-- REFERENCED_FILE_ID resolution: translate the delimiter, join onto the
catalog file's parent directory. -/
def resolve_referenced_file_id (base_path file_id : String) : String :=
  pathJoin base_path (translateFileId file_id)

/-- Parse one DICOMDIR record into a `DicomDirEntry`: the type defaults to
"UNKNOWN"; only IMAGE records with a REFERENCED_FILE_ID get a resolved
path; children are parsed recursively against the same base path. -/
def parse_dicomdir_record (base_path : String) : DicomDirRecord → DicomDirEntry
  | .mk rt rfid md lower =>
    let record_type := rt.getD "UNKNOWN"
    let path :=
      if record_type = "IMAGE" then
        match rfid with
        | some file_id => resolve_referenced_file_id base_path file_id
        | none => ""
      else ""
    .mk path record_type md (lower.attach.map fun c => parse_dicomdir_record base_path c.1)
termination_by r => sizeOf r
decreasing_by
  have h := List.sizeOf_lt_of_mem c.2
  simp only [DicomDirRecord.mk.sizeOf_spec]
  omega

/-- `parse_dicomdir_records`: every record of the sequence becomes a child
of the parent entry, in order. -/
def parse_dicomdir_records (base_path : String) (records : List DicomDirRecord) :
    List DicomDirEntry :=
  records.map (parse_dicomdir_record base_path)

/-- A property holding at every node of a parsed entry tree. -/
def allEntries (p : DicomDirEntry → Prop) : DicomDirEntry → Prop
  | .mk path tn md ch => p (.mk path tn md ch) ∧ ∀ c ∈ ch, allEntries p c

theorem parse_dicomdir_nonimage_no_path (base_path : String) :
    (r : DicomDirRecord) →
      allEntries (fun e => e.type_name ≠ "IMAGE" → e.path = "")
        (parse_dicomdir_record base_path r)
  | .mk rt rfid md lower => by
    rw [parse_dicomdir_record.eq_def]
    dsimp only
    rw [allEntries.eq_def]
    dsimp only
    constructor
    · intro hne
      simp only [DicomDirEntry.type_name] at hne
      simp only [DicomDirEntry.path, if_neg hne]
    · intro c hc
      simp only [List.mem_map, List.mem_attach, true_and, Subtype.exists] at hc
      obtain ⟨c0, hc0, rfl⟩ := hc
      exact parse_dicomdir_nonimage_no_path base_path c0
termination_by r => sizeOf r
decreasing_by
  have h := List.sizeOf_lt_of_mem hc0
  simp only [DicomDirRecord.mk.sizeOf_spec]
  omega

/-- C7: DICOMDIR path resolution.  (1) For every record at every depth, a
non-IMAGE record gets no resolved path.  (2) An IMAGE record with a
referenced-file-id resolves it by splitting on the backslash delimiter,
rejoining with the host separator and joining onto the catalog parent.
(3) Concretely, "DICOM\001\IMG1" under "/media" resolves to
"/media/DICOM/001/IMG1". -/
theorem C7_parse_dicomdir_image_path_resolution :
    (∀ (base_path : String) (records : List DicomDirRecord),
      ∀ e ∈ parse_dicomdir_records base_path records,
        allEntries (fun e2 => e2.type_name ≠ "IMAGE" → e2.path = "") e) ∧
    (∀ (base_path : String) (rt : Option String) (rfid : Option String)
        (md : List (String × DicomValueType)) (lower : List DicomDirRecord)
        (file_id : String),
      rt.getD "UNKNOWN" = "IMAGE" → rfid = some file_id →
      (parse_dicomdir_record base_path (.mk rt rfid md lower)).path =
        pathJoin base_path
          (String.mk (List.intercalate mainSeparatorStr.data (file_id.data.splitOn '\\')))) ∧
    resolve_referenced_file_id "/media" "DICOM\\001\\IMG1" = "/media/DICOM/001/IMG1" := by
  refine ⟨?_, ?_, by decide⟩
  · intro base_path records e he
    unfold parse_dicomdir_records at he
    rw [List.mem_map] at he
    obtain ⟨r, hr, rfl⟩ := he
    exact parse_dicomdir_nonimage_no_path base_path r
  · intro base_path rt rfid md lower file_id hty hfid
    rw [parse_dicomdir_record.eq_def]
    dsimp only
    simp only [DicomDirEntry.path, hty, if_pos rfl, hfid, if_true]
    rfl

/-- Witness for C7's conditional parts at a concrete two-level catalog. -/
theorem C7_parse_dicomdir_image_path_resolution_witness :
    ((Option.getD (some "IMAGE") "UNKNOWN") = "IMAGE" ∧
      (some "DICOM\\001\\IMG1" : Option String) = some "DICOM\\001\\IMG1") ∧
    (parse_dicomdir_record "/media"
        (.mk (some "IMAGE") (some "DICOM\\001\\IMG1") [] [])).path =
      pathJoin "/media"
        (String.mk (List.intercalate mainSeparatorStr.data
          (("DICOM\\001\\IMG1" : String).data.splitOn '\\'))) :=
  ⟨⟨by decide, rfl⟩,
    (C7_parse_dicomdir_image_path_resolution).2.1 "/media" (some "IMAGE")
      (some "DICOM\\001\\IMG1") [] [] "DICOM\\001\\IMG1" (by decide) rfl⟩

/-! ## Element converters (lines 258-446, 1817-1858) and extract_metadata (1027-1125) -/

/-- The `PrimitiveValue` variants inspected by the converters; all other
variants (dates, times, tags, ...) behave like the `_` arm and are
collapsed into `other`.  `f64`/`f32` values are `ℚ`, signed integers `Int`,
unsigned integers `ℕ`. -/
inductive PrimitiveValueM where
  | str (s : String)
  | strs (v : List String)
  | f64 (v : List ℚ)
  | f32 (v : List ℚ)
  | i64 (v : List Int)
  | i32 (v : List Int)
  | i16 (v : List Int)
  | u32 (v : List ℕ)
  | u16 (v : List ℕ)
  | u8 (v : List ℕ)
  | other
deriving Repr, DecidableEq

/-- `Value`: primitive, nested sequence, or pixel sequence. -/
inductive DicomValue where
  | primitive (p : PrimitiveValueM)
  | sequence
  | pixelSequence
deriving Repr, DecidableEq

/-- Abstract in-memory element: the converters only inspect `value()`. -/
structure DicomElement where
  value : DicomValue
deriving Repr, DecidableEq

/-- Digit-string parser: `some` of the base-10 value on a nonempty
all-digit string, `none` otherwise. -/
def parseDigits : List Char → Option ℕ
  | [] => none
  | cs =>
    if cs.all fun c => c.isDigit then
      some (cs.foldl (fun n c => 10 * n + (c.toNat - 48)) 0)
    else none

/-- Decimal parser modelling `str::parse::<f64>` on plain decimal literals
(optional sign, integer digits, optional fractional digits).  Exponent and
special forms are not modelled; the verified properties depend only on a
parse succeeding or failing, never on which exact strings parse. -/
def parseF64core (cs : List Char) : Option ℚ :=
  let signed : ℚ × List Char :=
    match cs with
    | '-' :: rest => (-1, rest)
    | '+' :: rest => (1, rest)
    | _ => (1, cs)
  match signed.2.splitOn '.' with
  | [intPart] => (parseDigits intPart).map fun n => signed.1 * n
  | [intPart, fracPart] =>
    if intPart = [] ∧ fracPart = [] then none
    else
      match (if intPart = [] then some 0 else parseDigits intPart),
        (if fracPart = [] then some 0 else parseDigits fracPart) with
      | some i, some f =>
        some (signed.1 * ((i : ℚ) + (f : ℚ) / 10 ^ fracPart.length))
      | _, _ => none
  | _ => none

/-- `s.trim().parse::<f64>()`: whitespace-trimming then decimal parse. -/
def parseF64 (s : String) : Option ℚ :=
  parseF64core
    (((s.data.dropWhile Char.isWhitespace).reverse.dropWhile Char.isWhitespace).reverse)

/-- `element_to_string`: first value rendered as text (strings verbatim,
numbers via their textual rendering, abstracted by `toString`), `None` for
empty or non-primitive values. -/
def element_to_string (elem : DicomElement) : Option String :=
  match elem.value with
  | .primitive prim =>
    match prim with
    | .str s => some s
    | .f32 v => if v.length > 0 then some (toString (v.getD 0 0)) else none
    | .i32 v => if v.length > 0 then some (toString (v.getD 0 0)) else none
    | .f64 v => if v.length > 0 then some (toString (v.getD 0 0)) else none
    | .i16 v => if v.length > 0 then some (toString (v.getD 0 0)) else none
    | .u16 v => if v.length > 0 then some (toString (v.getD 0 0)) else none
    | .i64 v => if v.length > 0 then some (toString (v.getD 0 0)) else none
    | .u32 v => if v.length > 0 then some (toString (v.getD 0 0)) else none
    | .u8 v => if v.length > 0 then some (toString (v.getD 0 0)) else none
    | _ => none
  | _ => none

/-- `element_to_int`: first value of an integer-typed element as `i32`;
strings are NOT parsed (the `_` arm). -/
def element_to_int (elem : DicomElement) : Option Int :=
  match elem.value with
  | .primitive prim =>
    match prim with
    | .i32 v => if v.length > 0 then some (v.getD 0 0) else none
    | .i16 v => if v.length > 0 then some (v.getD 0 0) else none
    | .u16 v => if v.length > 0 then some ((v.getD 0 0 : ℕ) : Int) else none
    | .u8 v => if v.length > 0 then some ((v.getD 0 0 : ℕ) : Int) else none
    | _ => none
  | _ => none

/-- `element_to_float64`: first float value, or a parsed decimal string. -/
def element_to_float64 (elem : DicomElement) : Option ℚ :=
  match elem.value with
  | .primitive prim =>
    match prim with
    | .f64 v => if v.length > 0 then some (v.getD 0 0) else none
    | .f32 v => if v.length > 0 then some (v.getD 0 0) else none
    | .str s => parseF64 s
    | _ => none
  | _ => none

/-- `element_to_float64_vector`: float lists verbatim; decimal strings split
on the backslash delimiter with each component parsed best-effort, `None`
only when zero components parse. -/
def element_to_float64_vector (elem : DicomElement) : Option (List ℚ) :=
  match elem.value with
  | .primitive prim =>
    match prim with
    | .f64 v => some v
    | .f32 v => some v
    | .str s =>
      let parts := (s.data.splitOn '\\').filterMap fun part => parseF64 (String.mk part)
      if parts = [] then none else some parts
    | _ => none
  | _ => none

/-- Tag constants (group, element) used by `extract_metadata`. -/
def PATIENT_NAME : ℕ × ℕ := (0x0010, 0x0010)

def PATIENT_ID : ℕ × ℕ := (0x0010, 0x0020)

def STUDY_DATE : ℕ × ℕ := (0x0008, 0x0020)

def ACCESSION_NUMBER : ℕ × ℕ := (0x0008, 0x0050)

def MODALITY : ℕ × ℕ := (0x0008, 0x0060)

def STUDY_DESCRIPTION : ℕ × ℕ := (0x0008, 0x1030)

def SERIES_DESCRIPTION : ℕ × ℕ := (0x0008, 0x103E)

def INSTANCE_NUMBER : ℕ × ℕ := (0x0020, 0x0013)

def SERIES_NUMBER : ℕ × ℕ := (0x0020, 0x0011)

def STUDY_INSTANCE_UID : ℕ × ℕ := (0x0020, 0x000D)

def SERIES_INSTANCE_UID : ℕ × ℕ := (0x0020, 0x000E)

def SOP_INSTANCE_UID : ℕ × ℕ := (0x0008, 0x0018)

def IMAGE_POSITION_PATIENT : ℕ × ℕ := (0x0020, 0x0032)

def IMAGE_ORIENTATION_PATIENT : ℕ × ℕ := (0x0020, 0x0037)

def SLICE_LOCATION : ℕ × ℕ := (0x0020, 0x1041)

def SLICE_THICKNESS : ℕ × ℕ := (0x0018, 0x0050)

def SPACING_BETWEEN_SLICES : ℕ × ℕ := (0x0018, 0x0088)

def PIXEL_SPACING : ℕ × ℕ := (0x0028, 0x0030)

/-- Abstract successfully opened DICOM object: `obj.element(tag).ok()` as a
function from the tag to the element, `none` for a failed lookup. -/
structure DicomObject where
  element : ℕ × ℕ → Option DicomElement

/-- `extract_metadata`: every field is looked up and converted best-effort;
the function builds `Ok` unconditionally. -/
def extract_metadata (obj : DicomObject) : Except String DicomMetadata :=
  Except.ok
    { patient_name := (obj.element PATIENT_NAME).bind element_to_string,
      patient_id := (obj.element PATIENT_ID).bind element_to_string,
      study_date := (obj.element STUDY_DATE).bind element_to_string,
      accession_number := (obj.element ACCESSION_NUMBER).bind element_to_string,
      modality := (obj.element MODALITY).bind element_to_string,
      study_description := (obj.element STUDY_DESCRIPTION).bind element_to_string,
      series_description := (obj.element SERIES_DESCRIPTION).bind element_to_string,
      instance_number := (obj.element INSTANCE_NUMBER).bind element_to_int,
      series_number := (obj.element SERIES_NUMBER).bind element_to_int,
      study_instance_uid := (obj.element STUDY_INSTANCE_UID).bind element_to_string,
      series_instance_uid := (obj.element SERIES_INSTANCE_UID).bind element_to_string,
      sop_instance_uid := (obj.element SOP_INSTANCE_UID).bind element_to_string,
      image_position := (obj.element IMAGE_POSITION_PATIENT).bind element_to_float64_vector,
      image_orientation :=
        (obj.element IMAGE_ORIENTATION_PATIENT).bind element_to_float64_vector,
      slice_location := (obj.element SLICE_LOCATION).bind element_to_float64,
      slice_thickness := (obj.element SLICE_THICKNESS).bind element_to_float64,
      spacing_between_slices :=
        (obj.element SPACING_BETWEEN_SLICES).bind element_to_float64,
      pixel_spacing := (obj.element PIXEL_SPACING).bind element_to_float64_vector }

/-- Object with no elements at all. -/
def objEmptyC8 : DicomObject := ⟨fun _ => none⟩

/-- Object whose present elements are all malformed for their converter:
an unparsable pixel-spacing string, a string-typed instance number (the
integer converter does not parse strings), and an empty float list. -/
def objMalformedC8 : DicomObject :=
  ⟨fun t =>
    if t = PIXEL_SPACING then some ⟨.primitive (.str "abc\\def")⟩
    else if t = INSTANCE_NUMBER then some ⟨.primitive (.str "42")⟩
    else if t = SLICE_LOCATION then some ⟨.primitive (.f64 [])⟩
    else if t = IMAGE_POSITION_PATIENT then some ⟨.primitive .other⟩
    else none⟩

/-- C8: the metadata mapper is total — for EVERY abstract object it returns
`Ok`, with missing or malformed fields degraded to `None`; concretely, both
the empty object and an object carrying only malformed elements yield
`Ok` of the all-`None` record. -/
theorem C8_extract_metadata_total (obj : DicomObject) :
    (∃ m, extract_metadata obj = Except.ok m) ∧
      extract_metadata objEmptyC8 = Except.ok emptyMetadata ∧
      extract_metadata objMalformedC8 = Except.ok emptyMetadata :=
  ⟨⟨_, rfl⟩, by decide, by decide⟩

/-! ## to_el and extract_metadata_elements (dicom_rs_interface_complex.rs lines 34-76) -/

/-- The `El` record: tag as 8 hex digits, dictionary alias (the source
field is called `alias`, a Lean keyword, hence `alias_name` here), VR,
rendered value. -/
structure El where
  tag : String
  alias_name : String
  vr : String
  value : String
deriving Repr, DecidableEq

/-- One uppercase hex digit. -/
def hexDigit (n : ℕ) : Char :=
  if n < 10 then Char.ofNat (48 + n) else Char.ofNat (55 + n)

/-- `format!("{:04X}")` for a 16-bit group/element number. -/
def toHex4 (n : ℕ) : String :=
  String.mk [hexDigit (n / 4096 % 16), hexDigit (n / 256 % 16),
    hexDigit (n / 16 % 16), hexDigit (n % 16)]

/-- Abstract element as seen by the complex-interface extractor: identity
data, the non-primitive flag, and the outcome of the collaborator's
`value().to_str()` textual rendering (which can fail). -/
structure ComplexElement where
  group : ℕ
  element : ℕ
  vr : String
  is_non_primitive : Bool
  to_str : Except String String
deriving Repr, DecidableEq

/-- The PixelData tag (7FE0,0010). -/
def PIXEL_DATA : ℕ × ℕ := (0x7FE0, 0x0010)

/-- `to_el`: tag formatted as hex, alias looked up in the injected
dictionary with the unknown-attribute sentinel, and the value rendered to
text EXCEPT for the pixel-data tag, whose value is the fixed bulk-data
placeholder; a failed rendering propagates as the error. -/
def to_el (dict : ℕ × ℕ → Option String) (e : ComplexElement) : Except String El :=
  let tag_str := toHex4 e.group ++ toHex4 e.element
  let alias_name := (dict (e.group, e.element)).getD "«unknown attribute»"
  let vr := e.vr
  match (if (e.group, e.element) = PIXEL_DATA then Except.ok "«pixel data»"
         else e.to_str) with
  | Except.ok value =>
    Except.ok { tag := tag_str, alias_name := alias_name, vr := vr, value := value }
  | Except.error err => Except.error err

/-- `HashMap::insert` on an association-list model: replace the existing
binding or append a fresh one. -/
def hmInsert (m : List (String × El)) (k : String) (v : El) : List (String × El) :=
  if m.any fun p => p.1 == k then
    m.map fun p => if p.1 == k then (k, v) else p
  else m ++ [(k, v)]

/-- The insertion loop of `extract_metadata_elements`: stops at the first
element whose conversion fails and returns that error. -/
def extract_elements_loop (dict : ℕ × ℕ → Option String) :
    List ComplexElement → List (String × El) → Except String (List (String × El))
  | [], acc => Except.ok acc
  | e :: rest, acc =>
    match to_el dict e with
    | Except.ok el => extract_elements_loop dict rest (hmInsert acc el.tag el)
    | Except.error err => Except.error err

/-- `extract_metadata_elements`: filter out non-primitive elements, then
convert each in order into the map. -/
def extract_metadata_elements (dict : ℕ × ℕ → Option String)
    (elems : List ComplexElement) : Except String (List (String × El)) :=
  extract_elements_loop dict (elems.filter fun e => !e.is_non_primitive) []

theorem except_isOk_iff {ε α : Type} (x : Except ε α) :
    x.isOk = true ↔ ∃ a, x = Except.ok a := by
  cases x <;> simp [Except.isOk, Except.toBool]

theorem extract_elements_loop_error (dict : ℕ × ℕ → Option String)
    (l1 : List ComplexElement) (e : ComplexElement) (l2 : List ComplexElement)
    (err : String) (h1 : ∀ x ∈ l1, (to_el dict x).isOk)
    (he : to_el dict e = Except.error err) (acc : List (String × El)) :
    extract_elements_loop dict (l1 ++ e :: l2) acc = Except.error err := by
  induction l1 generalizing acc with
  | nil =>
    rw [List.nil_append, extract_elements_loop, he]
  | cons x xs ih =>
    rw [List.cons_append, extract_elements_loop]
    obtain ⟨el, hel⟩ := (except_isOk_iff _).mp (h1 x (List.mem_cons_self _ _))
    rw [hel]
    exact ih (fun y hy => h1 y (List.mem_cons_of_mem _ hy)) _

theorem extract_elements_loop_ok (dict : ℕ × ℕ → Option String)
    (l : List ComplexElement) (h : ∀ x ∈ l, (to_el dict x).isOk)
    (acc : List (String × El)) :
    ∃ m, extract_elements_loop dict l acc = Except.ok m := by
  induction l generalizing acc with
  | nil => exact ⟨acc, rfl⟩
  | cons x xs ih =>
    rw [extract_elements_loop]
    obtain ⟨el, hel⟩ := (except_isOk_iff _).mp (h x (List.mem_cons_self _ _))
    rw [hel]
    exact ih (fun y hy => h y (List.mem_cons_of_mem _ hy)) _

/-- C9: the element extractor masks bulk pixel data and is fail-fast.
(1) A successfully converted pixel-data element carries the fixed
placeholder as its value.  (2) Any other successfully converted element
carries exactly its textual rendering.  (3) A non-pixel element whose
rendering fails makes `to_el` fail with that error.  (4) If the filtered
element sequence is `l1 ++ e :: l2` with every `l1` element convertible and
`e` failing, the whole extraction returns exactly `e`'s error — no partial
mapping.  (5) When every filtered element converts, the extraction
returns a mapping. -/
theorem C9_extract_elements_pixel_mask_fail_fast :
    (∀ (dict : ℕ × ℕ → Option String) (e : ComplexElement) (el : El),
      (e.group, e.element) = PIXEL_DATA → to_el dict e = Except.ok el →
        el.value = "«pixel data»") ∧
    (∀ (dict : ℕ × ℕ → Option String) (e : ComplexElement) (el : El) (s : String),
      (e.group, e.element) ≠ PIXEL_DATA → e.to_str = Except.ok s →
        to_el dict e = Except.ok el → el.value = s) ∧
    (∀ (dict : ℕ × ℕ → Option String) (e : ComplexElement) (err : String),
      (e.group, e.element) ≠ PIXEL_DATA → e.to_str = Except.error err →
        to_el dict e = Except.error err) ∧
    (∀ (dict : ℕ × ℕ → Option String) (elems l1 l2 : List ComplexElement)
        (e : ComplexElement) (err : String),
      (elems.filter fun x => !x.is_non_primitive) = l1 ++ e :: l2 →
      (∀ x ∈ l1, (to_el dict x).isOk) → to_el dict e = Except.error err →
        extract_metadata_elements dict elems = Except.error err) ∧
    (∀ (dict : ℕ × ℕ → Option String) (elems : List ComplexElement),
      (∀ x ∈ elems.filter fun e => !e.is_non_primitive, (to_el dict x).isOk) →
        ∃ m, extract_metadata_elements dict elems = Except.ok m) := by
  refine ⟨?_, ?_, ?_, ?_, ?_⟩
  · intro dict e el hpix hel
    simp only [to_el] at hel
    rw [if_pos hpix] at hel
    obtain rfl := Except.ok.inj hel
    rfl
  · intro dict e el s hpix hstr hel
    simp only [to_el] at hel
    rw [if_neg hpix, hstr] at hel
    obtain rfl := Except.ok.inj hel
    rfl
  · intro dict e err hpix hstr
    simp only [to_el]
    rw [if_neg hpix, hstr]
  · intro dict elems l1 l2 e err hfil h1 he
    unfold extract_metadata_elements
    rw [hfil]
    exact extract_elements_loop_error dict l1 e l2 err h1 he []
  · intro dict elems h
    exact extract_elements_loop_ok dict _ h []

/-- Primitive element rendering "v" with tag (0008,0060). -/
def elGoodC9 : ComplexElement :=
  { group := 0x0008, element := 0x0060, vr := "CS", is_non_primitive := false,
    to_str := Except.ok "CT" }

/-- The pixel-data element (its rendering result is never consulted). -/
def elPixelC9 : ComplexElement :=
  { group := 0x7FE0, element := 0x0010, vr := "OW", is_non_primitive := false,
    to_str := Except.error "huge blob" }

/-- A non-primitive (sequence) element, filtered out before conversion. -/
def elSeqC9 : ComplexElement :=
  { group := 0x0008, element := 0x1115, vr := "SQ", is_non_primitive := true,
    to_str := Except.error "not text" }

/-- An element whose rendering fails. -/
def elBadC9 : ComplexElement :=
  { group := 0x0010, element := 0x0010, vr := "PN", is_non_primitive := false,
    to_str := Except.error "boom" }

/-- Witness for C9's fail-fast clause: with a good element, the pixel
element, a filtered-out sequence element, a failing element and a trailing
good element, extraction returns exactly the failing element's error. -/
theorem C9_extract_elements_pixel_mask_fail_fast_witness :
    (([elGoodC9, elPixelC9, elSeqC9, elBadC9, elGoodC9].filter
        fun x => !x.is_non_primitive) =
      [elGoodC9, elPixelC9] ++ elBadC9 :: [elGoodC9] ∧
      (∀ x ∈ [elGoodC9, elPixelC9], (to_el (fun _ => none) x).isOk) ∧
      to_el (fun _ => none) elBadC9 = Except.error "boom") ∧
    extract_metadata_elements (fun _ => none)
      [elGoodC9, elPixelC9, elSeqC9, elBadC9, elGoodC9] = Except.error "boom" :=
  ⟨⟨by decide, by decide, by decide⟩,
    C9_extract_elements_pixel_mask_fail_fast.2.2.2.1 (fun _ => none)
      [elGoodC9, elPixelC9, elSeqC9, elBadC9, elGoodC9]
      [elGoodC9, elPixelC9] [elGoodC9] elBadC9 "boom"
      (by decide) (by decide) (by decide)⟩
